import Mathlib

set_option linter.unusedVariables false
set_option linter.unnecessarySimpa false

/-!
Shallow embedding of the completion coordinator and the versioned file
server of `autoload/cm.py` (nvim-completion-manager).

Python dictionaries with a fixed field set are embedded as structures with
`Option` fields for keys that may be absent (accessing an absent key is a
`KeyError`, embedded as `Except.error`).  The handler's mutable fields
(`_matches`, `_sources`, `_last_matches`, `_has_popped_up`) form
`HandlerState`; each event handler is a state transformer that additionally
reports the outbound `cm#core_complete` emissions it performed, whether it
invoked `_refresh_completions`, and any uncaught exception.  Python's
`try/except Exception: continue` around a per-source loop body is embedded
by `pyCatch`: the body is an `Except`-valued function and a failing body
leaves the accumulator unchanged.  Strings are sequences of code points;
Python slices (with non-negative indices) become `take`/`drop` on the
underlying character list.
-/

/-- One edit-cycle context as consumed by the coordinator: the typed text of
the current line up to the cursor, the 1-based cursor column, the filetype
and the optional scope override (`ctx.get('scope', ctx['filetype'])`). -/
structure Ctx where
  typed : String
  col : Nat
  filetype : String
  scope : Option String
  deriving Repr, DecidableEq

/-- Python slice `s[i:]` on code points, for a non-negative index. -/
def pyDrop (s : String) (i : Nat) : String := String.mk (s.data.drop i)

/-- Python slice `s[0:n]` on code points, for a non-negative index. -/
def pyTake (s : String) (n : Nat) : String := String.mk (s.data.take n)

/-- Python slice `s[a:b]` on code points, for non-negative indices. -/
def pySlice (s : String) (a b : Nat) : String := String.mk ((s.data.take b).drop a)

/-- Python `str.lower`, code-point-wise. -/
def strLower (s : String) : String := String.mk (s.data.map Char.toLower)

/-- A source descriptor dictionary (one value of the `srcs` table).  `name`
is the descriptor's own `'name'` entry (`none` embeds a descriptor lacking
it, whose access raises `KeyError`); `cm_refresh` records whether the
descriptor has a `'cm_refresh'` entry; a `none` in `channels` embeds a
channel dictionary without an `'id'` entry. -/
structure SourceInfo where
  name : Option String
  priority : Option Int
  scopes : Option (List String)
  refresh : Nat
  cm_refresh : Bool
  channels : List (Option Nat)
  abbreviation : Option String
  deriving Repr, DecidableEq

/-- The `srcs` table: source name (dictionary key) to descriptor. -/
abbrev SrcTable := List (String × SourceInfo)

/-- A raw candidate dictionary; `word` may be absent (its access in the
filter of `process_matches` raises `KeyError`). -/
structure RawRec where
  word : Option String
  menu : Option String
  info : Option String
  deriving Repr, DecidableEq

/-- One raw candidate as delivered by a source: bare text or a dictionary. -/
inductive RawItem where
  | str (s : String)
  | dict (r : RawRec)
  deriving Repr, DecidableEq

/-- A candidate after `process_matches`: `word` is present and `menu` has
been derived when it was absent. -/
structure PMatch where
  word : String
  menu : String
  info : Option String
  deriving Repr, DecidableEq

/-- One value of `self._matches`: the source's reported start column, its
raw matches, and (once a merge has processed it) its `last_matches`. -/
structure MatchEntry where
  startcol : Nat
  «matches» : List RawItem
  last_matches : Option (List PMatch)
  deriving Repr, DecidableEq

/-- `self._matches`, keyed by source name, in insertion order. -/
abbrev MState := List (String × MatchEntry)

/-- Dictionary read `self._matches.get(name)`. -/
def lookupEntry (m : MState) (n : String) : Option MatchEntry :=
  (m.find? (fun p => p.1 == n)).map Prod.snd

/-- Dictionary delete `del self._matches[name]` (no-op when absent). -/
def eraseEntry (m : MState) (n : String) : MState :=
  m.filter (fun p => p.1 != n)

/-- Write the `startcol` and `matches` keys of `self._matches[name]`,
creating the entry when absent and preserving any `last_matches` key. -/
def updateStore (m : MState) (n : String) (sc : Nat) (raw : List RawItem) : MState :=
  match lookupEntry m n with
  | some _ => m.map (fun p => if p.1 == n then (p.1, { p.2 with startcol := sc, «matches» := raw }) else p)
  | none => m ++ [(n, { startcol := sc, «matches» := raw, last_matches := none })]

/-- Write `self._matches[name]['last_matches']`. -/
def setLast (m : MState) (n : String) (lm : List PMatch) : MState :=
  m.map (fun p => if p.1 == n then (p.1, { p.2 with last_matches := some lm }) else p)

/-- The `finally` block of `cm_complete`: empty raw matches delete the
entry, non-empty ones overwrite `startcol` and `matches`. -/
def storeMatches (m : MState) (name : String) (startcol : Nat) («matches» : List RawItem) : MState :=
  if «matches».isEmpty then eraseEntry m name
  else updateStore m name startcol «matches»

/-- Dictionary read `srcs.get(name)`. -/
def lookupSrc (srcs : SrcTable) (n : String) : Option SourceInfo :=
  (srcs.find? (fun p => p.1 == n)).map Prod.snd

/-- Dictionary read `srcs[name]`, raising `KeyError` when absent. -/
def lookupSrcE (srcs : SrcTable) (name : String) : Except String SourceInfo :=
  match lookupSrc srcs name with
  | some s => Except.ok s
  | none => Except.error ("KeyError: " ++ name)

/-- `try body except Exception: pass` around a loop body: a failing body
leaves the accumulator unchanged and the loop continues. -/
def pyCatch {α : Type} (r : Except String α) (dflt : α) : α :=
  match r with
  | Except.ok v => v
  | Except.error _ => dflt

/-- Whether an embedded computation ran without an exception. -/
def exceptOk {α : Type} (r : Except String α) : Bool :=
  match r with
  | Except.ok _ => true
  | Except.error _ => false

/-- The annotation-defaulting branch of `process_matches`: when `menu` is
absent, a present, non-empty `info` shorter than 70 characters is combined
with the source's abbreviation as `abbreviation ++ " :" ++ info` when the
abbreviation is non-empty, else used alone; otherwise the menu becomes the
source's abbreviation (empty string when absent). -/
def deriveMenu (srcs : SrcTable) (name : String) (menu? info? : Option String) : Except String String :=
  match menu? with
  | some m => Except.ok m
  | none =>
    match info? with
    | some i =>
      if i != "" && i.length < 70 then
        match lookupSrcE srcs name with
        | Except.error e => Except.error e
        | Except.ok src =>
          let ab := src.abbreviation.getD ""
          if ab != "" then Except.ok (ab ++ " :" ++ i) else Except.ok i
      else
        match lookupSrcE srcs name with
        | Except.error e => Except.error e
        | Except.ok src => Except.ok (src.abbreviation.getD "")
    | none =>
      match lookupSrcE srcs name with
      | Except.error e => Except.error e
      | Except.ok src => Except.ok (src.abbreviation.getD "")

/-- Normalisation of one raw candidate inside `process_matches`: bare text
becomes a record with only `word`; the menu is derived when absent; a
dictionary without `word` raises `KeyError` at the filter's word access. -/
def procItem (srcs : SrcTable) (name : String) (item : RawItem) : Except String PMatch :=
  let word? : Option String := match item with | RawItem.str s => some s | RawItem.dict r => r.word
  let menu? : Option String := match item with | RawItem.str _ => none | RawItem.dict r => r.menu
  let info? : Option String := match item with | RawItem.str _ => none | RawItem.dict r => r.info
  match deriveMenu srcs name menu? info? with
  | Except.error e => Except.error e
  | Except.ok menu =>
    match word? with
    | some w => Except.ok { word := w, menu := menu, info := info? }
    | none => Except.error "KeyError: word"

/-- The word filter of `process_matches`: keep a candidate iff its word,
truncated to the base's length and case-folded, equals the case-folded
base. -/
def keepB (base : String) (p : PMatch) : Bool :=
  strLower base == strLower (pyTake p.word base.length)

/-- The normalise-and-filter loop of `process_matches`; the first raising
item aborts the whole call. -/
def procList (srcs : SrcTable) (name : String) (base : String) : List RawItem → Except String (List PMatch)
  | [] => Except.ok []
  | item :: rest =>
    match procItem srcs name item with
    | Except.error e => Except.error e
    | Except.ok p =>
      match procList srcs name base rest with
      | Except.error e => Except.error e
      | Except.ok ps => Except.ok (if keepB base p then p :: ps else ps)

/-- Stable insertion for the by-word-length sort. -/
def insertByLen (x : PMatch) : List PMatch → List PMatch
  | [] => [x]
  | y :: ys => if x.word.length ≤ y.word.length then x :: y :: ys else y :: insertByLen x ys

/-- `result.sort(key=len of word)`: stable, ascending by word length. -/
def sortByLen (l : List PMatch) : List PMatch := l.foldr insertByLen []

/-- `Handler.process_matches`: normalise, derive menus, filter by the base
`ctx['typed'][startcol-1:]`, and stable-sort by word length. -/
def process_matches (srcs : SrcTable) (name : String) (ctx : Ctx) (startcol : Nat)
    («matches» : List RawItem) : Except String (List PMatch) :=
  match procList srcs name (pyDrop ctx.typed (startcol - 1)) «matches» with
  | Except.error e => Except.error e
  | Except.ok l => Except.ok (sortByLen l)

/-- The handler's mutable fields: `_matches`, `_sources`, `_last_matches`
(initialised to `[]` and never reassigned anywhere in the file), and
`_has_popped_up`. -/
structure HandlerState where
  «matches» : MState
  sources : SrcTable
  last_matches : List PMatch
  has_popped_up : Bool
  deriving Repr, DecidableEq

/-- `Handler.__init__`. -/
def initState : HandlerState :=
  { «matches» := [], sources := [], last_matches := [], has_popped_up := false }

/-- `Handler._check_scope`. -/
def _check_scope (ctx : Ctx) (info : SourceInfo) : Bool :=
  let scopes := info.scopes.getD ["*"]
  let cur_scope := ctx.scope.getD ctx.filetype
  scopes.any (fun scope => scope == "*" || scope == cur_scope)

/-- `Handler._complete`'s decision: the `cm#core_complete` notification is
suppressed iff both the new list and `self._last_matches` are empty. -/
def _completeB (st : HandlerState) («matches» : List PMatch) : Bool :=
  !(«matches».isEmpty && st.last_matches.isEmpty)

/-- Key extraction for the priority sort: `self._sources[x]['priority']`
for every stored name, raising `KeyError` on a missing descriptor or a
missing priority. -/
def priorityKeys (srcs : SrcTable) : List String → Except String (List (String × Int))
  | [] => Except.ok []
  | n :: ns =>
    match lookupSrc srcs n with
    | none => Except.error ("KeyError: " ++ n)
    | some s =>
      match s.priority with
      | none => Except.error "KeyError: priority"
      | some p =>
        match priorityKeys srcs ns with
        | Except.ok rest => Except.ok ((n, p) :: rest)
        | Except.error e => Except.error e

/-- Stable insertion for the descending-priority sort (`reverse=True`
keeps the original order of equal keys). -/
def insertDesc (x : String × Int) : List (String × Int) → List (String × Int)
  | [] => [x]
  | y :: ys => if y.2 ≤ x.2 then x :: y :: ys else y :: insertDesc x ys

/-- Stable sort, descending by key. -/
def sortDesc (l : List (String × Int)) : List (String × Int) := l.foldr insertDesc []

/-- `sorted(self._matches.keys(), key=priority, reverse=True)`; the key
lookups happen outside any exception guard. -/
def sortNamesByPriority (srcs : SrcTable) (m : MState) : Except String (List String) :=
  match priorityKeys srcs (m.map Prod.fst) with
  | Except.error e => Except.error e
  | Except.ok keyed => Except.ok ((sortDesc keyed).map Prod.fst)

/-- The guarded body of the first per-name loop of `_refresh_completions`:
an invalid startcol empties `last_matches`; otherwise the raw matches are
reprocessed, stored as `last_matches`, and a non-empty result with a
smaller startcol lowers the running minimum. -/
def loop1Body (srcs : SrcTable) (ctx : Ctx) (acc : MState × Nat) (name : String) :
    Except String (MState × Nat) :=
  match lookupEntry acc.1 name with
  | none => Except.error ("KeyError: " ++ name)
  | some e =>
    if ctx.col < e.startcol then Except.ok (setLast acc.1 name [], acc.2)
    else
      match process_matches srcs name ctx e.startcol e.matches with
      | Except.error err => Except.error err
      | Except.ok pm =>
        let m2 := setLast acc.1 name pm
        if pm.isEmpty then Except.ok (m2, acc.2)
        else if e.startcol < acc.2 then Except.ok (m2, e.startcol)
        else Except.ok (m2, acc.2)

/-- The first per-name loop of `_refresh_completions`, with its
`try/except: continue` guard. -/
def refreshLoop1 (srcs : SrcTable) (ctx : Ctx) (m : MState) (names : List String) : MState × Nat :=
  names.foldl (fun acc n => pyCatch (loop1Body srcs ctx acc n) acc) (m, ctx.col)

/-- The in-place padding `e['word'] = prefix + e['word']` over a source's
`last_matches`. -/
def padWords (pfx : String) (lm : List PMatch) : List PMatch :=
  lm.map (fun p => { p with word := pfx ++ p.word })

/-- The guarded body of the second per-name loop of `_refresh_completions`:
skip invalid startcols, read `last_matches` (raising `KeyError` when the
key is absent), pad each word with `ctx['typed'][startcol-1:source_startcol-1]`
(the padding mutates the stored records in place), and append to the
output. -/
def loop2Body (ctx : Ctx) (gstart : Nat) (acc : MState × List PMatch) (name : String) :
    Except String (MState × List PMatch) :=
  match lookupEntry acc.1 name with
  | none => Except.error ("KeyError: " ++ name)
  | some e =>
    if ctx.col < e.startcol then Except.ok acc
    else
      match e.last_matches with
      | none => Except.error "KeyError: last_matches"
      | some lm =>
        let pfx := pySlice ctx.typed (gstart - 1) (e.startcol - 1)
        Except.ok (setLast acc.1 name (padWords pfx lm), acc.2 ++ padWords pfx lm)

/-- The second per-name loop of `_refresh_completions`, with its
`try/except: continue` guard. -/
def refreshLoop2 (ctx : Ctx) (gstart : Nat) (m : MState) (names : List String) : MState × List PMatch :=
  names.foldl (fun acc n => pyCatch (loop2Body ctx gstart acc n) acc) (m, [])

/-- The result of one `_refresh_completions` run: the updated handler
state, the startcol and list passed to `_complete`, and whether
`_complete` actually fired the `cm#core_complete` notification. -/
structure MergeOut where
  st : HandlerState
  startcol : Nat
  merged : List PMatch
  emitted : Bool
  deriving Repr, DecidableEq

/-- `Handler._refresh_completions`.  The priority sort is outside any
guard, so its `KeyError` aborts the whole merge (`Except.error`); with no
stored names `_complete(ctx, ctx['col'], [])` is attempted; otherwise the
two guarded loops run and `_complete(ctx, startcol, matches)` is
attempted. -/
def _refresh_completions (st : HandlerState) (ctx : Ctx) : Except String MergeOut :=
  match sortNamesByPriority st.sources st.matches with
  | Except.error e => Except.error e
  | Except.ok names =>
    if names.isEmpty then
      Except.ok { st := st, startcol := ctx.col, merged := [], emitted := _completeB st [] }
    else
      let r1 := refreshLoop1 st.sources ctx st.matches names
      let r2 := refreshLoop2 ctx r1.2 r1.1 names
      let st2 := { st with «matches» := r2.1 }
      Except.ok { st := st2, startcol := r1.2, merged := r2.2, emitted := _completeB st2 r2.2 }

/-- Observable outcome of one handler event: updated state, the
`cm#core_complete` emissions performed, whether `_refresh_completions` was
invoked, and any exception that escaped the handler. -/
structure StepOut where
  st : HandlerState
  emits : List (Nat × List PMatch)
  refreshed : Bool
  err : Option String
  deriving Repr, DecidableEq

/-- The emissions a merge run performed. -/
def mergeEmits (mo : MergeOut) : List (Nat × List PMatch) :=
  if mo.emitted then [(mo.startcol, mo.merged)] else []

/-- `Handler.cm_complete`.  The response is processed eagerly; the
`finally` block persists the result into `self._matches` on every path
(early return and exception included); an empty processed result with no
previously stored non-empty `last_matches` returns early; otherwise, when
the popup has already been shown this cycle, an immediate
`_refresh_completions` follows. -/
def cm_complete (st0 : HandlerState) (srcs : SrcTable) (name : String) (ctx : Ctx)
    (startcol : Nat) («matches» : List RawItem) : StepOut :=
  let st1 := { st0 with sources := srcs }
  let resultE := process_matches srcs name ctx startcol «matches»
  let prevLast := ((lookupEntry st1.matches name).bind MatchEntry.last_matches).getD []
  let st2 := { st1 with «matches» := storeMatches st1.matches name startcol «matches» }
  match resultE with
  | Except.error e => { st := st2, emits := [], refreshed := false, err := some e }
  | Except.ok result =>
    if result.isEmpty && prevLast.isEmpty then
      { st := st2, emits := [], refreshed := false, err := none }
    else if st2.has_popped_up then
      match _refresh_completions st2 ctx with
      | Except.error e => { st := st2, emits := [], refreshed := true, err := some e }
      | Except.ok mo => { st := mo.st, emits := mergeEmits mo, refreshed := true, err := none }
    else
      { st := st2, emits := [], refreshed := false, err := none }

/-- `Handler.cm_insert_enter`: clears all stored matches. -/
def cm_insert_enter (st : HandlerState) : HandlerState :=
  { st with «matches» := [] }

/-- `Handler.cm_complete_timeout`: if the popup has not been shown this
cycle, merge and mark it shown. -/
def cm_complete_timeout (st : HandlerState) (ctx : Ctx) : StepOut :=
  if !st.has_popped_up then
    match _refresh_completions st ctx with
    | Except.error e => { st := st, emits := [], refreshed := true, err := some e }
    | Except.ok mo =>
      { st := { mo.st with has_popped_up := true }, emits := mergeEmits mo, refreshed := true, err := none }
  else { st := st, emits := [], refreshed := false, err := none }

/-- Membership of a character in the word class `[0-9a-zA-Z_]`. -/
def isWordChar (c : Char) : Bool := c.isAlphanum || c == '_'

/-- The typed-text-reset test of `cm_refresh`: empty typed text, or a
non-word character just typed. -/
def typedResetB (typed : String) : Bool :=
  match typed.data.getLast? with
  | none => true
  | some c => !isWordChar c

/-- The guarded body of the descriptor loop of `cm_refresh`: skip a source
whose scope set misses the current scope; skip one that already has stored
matches and no refresh flag; otherwise queue its direct invocation and its
channel notifications.  A descriptor without a `'name'` entry raises at
`info['name']`. -/
def cm_refreshBody (m : MState) (ctx : Ctx) (acc : List String × List (String × Nat))
    (p : String × SourceInfo) : Except String (List String × List (String × Nat)) :=
  if !_check_scope ctx p.2 then Except.ok acc
  else
    match p.2.name with
    | none => Except.error "KeyError: name"
    | some nm =>
      if (lookupEntry m nm).isSome && p.2.refresh == 0 then Except.ok acc
      else
        let calls := if p.2.cm_refresh then acc.1 ++ [p.1] else acc.1
        let chans := acc.2 ++ p.2.channels.filterMap (fun c => c.map (fun i => (p.1, i)))
        Except.ok (calls, chans)

/-- The descriptor loop of `cm_refresh`, with its `try/except: continue`
guard. -/
def cm_refreshLoop (m : MState) (ctx : Ctx) (srcs : SrcTable) :
    List String × List (String × Nat) :=
  srcs.foldl (fun acc p => pyCatch (cm_refreshBody m ctx acc p) acc) ([], [])

/-- Observable outcome of one `cm_refresh` event. -/
structure RefreshOut where
  st : HandlerState
  calls : List String
  channels : List (String × Nat)
  emits : List (Nat × List PMatch)
  refreshed : Bool
  err : Option String
  deriving Repr, DecidableEq

/-- `Handler.cm_refresh`: store the descriptor table, reset the popup
flag, clear all stored matches on a typed-text reset, evaluate every
descriptor under a per-source guard, and either merge immediately (no
source needs querying) or notify the queued sources. -/
def cm_refresh (st0 : HandlerState) (srcs : SrcTable) (ctx : Ctx) : RefreshOut :=
  let st1 := { st0 with sources := srcs, has_popped_up := false }
  let st2 := if typedResetB ctx.typed then { st1 with «matches» := [] } else st1
  let rc := cm_refreshLoop st2.matches ctx srcs
  if rc.1.isEmpty && rc.2.isEmpty then
    match _refresh_completions st2 ctx with
    | Except.error e =>
      { st := st2, calls := rc.1, channels := rc.2, emits := [], refreshed := true, err := some e }
    | Except.ok mo =>
      { st := { mo.st with has_popped_up := true }, calls := rc.1, channels := rc.2,
        emits := mergeEmits mo, refreshed := true, err := none }
  else
    { st := st2, calls := rc.1, channels := rc.2, emits := [], refreshed := false, err := none }

/-- The version identifier served and compared by the file server:
`changedtick` and cursor position. -/
structure FCtx where
  changedtick : Nat
  curpos : List Nat
  deriving Repr, DecidableEq

/-- The editor-side oracle the file server's thread queries synchronously:
the live context (`cm#context()`) and the buffer lines. -/
structure NvimState where
  context : FCtx
  buffer : List String
  deriving Repr, DecidableEq

/-- `FileServer.__init__`: the last-known live context, the context the
content cache was built at, and the cached content. -/
structure FileServerState where
  current_context : Option FCtx
  cache_context : Option FCtx
  cache_src : String
  deriving Repr, DecidableEq

/-- `FileServer._context_changed` (same as `cm#context_changed`). -/
def _context_changed : Option FCtx → Option FCtx → Bool
  | none, _ => true
  | some _, none => true
  | some a, some b => a.changedtick != b.changedtick || a.curpos != b.curpos

/-- `FileServer.get_src`: re-query the live context when the request does
not match the last-known one; return `none` when it still does not match;
rebuild the cached content when the live context differs from the cache's
context; return the cached content. -/
def get_src (nvim : NvimState) (st : FileServerState) (context : FCtx) :
    Option String × FileServerState :=
  let st1 := if _context_changed st.current_context (some context)
             then { st with current_context := some nvim.context } else st
  if _context_changed st1.current_context (some context) then (none, st1)
  else
    let st2 := if _context_changed st1.current_context st1.cache_context
               then { st1 with cache_context := st1.current_context,
                               cache_src := String.intercalate "\n" nvim.buffer }
               else st1
    (some st2.cache_src, st2)

/-- `FileServer.set_current_context`, called from the coordination side on
every `cm_refresh`. -/
def set_current_context (st : FileServerState) (context : FCtx) : FileServerState :=
  { st with current_context := some context }

/-! ### Concrete fixtures for the scenarios and witnesses below -/

/-- A plain source descriptor named `s` with priority 2. -/
def exSrcS : SourceInfo :=
  { name := some "s", priority := some 2, scopes := none, refresh := 0,
    cm_refresh := false, channels := [], abbreviation := none }

/-- A plain source descriptor named `t` with priority 1. -/
def exSrcT : SourceInfo :=
  { name := some "t", priority := some 1, scopes := none, refresh := 0,
    cm_refresh := false, channels := [], abbreviation := none }

/-- A two-source descriptor table. -/
def exSrcs : SrcTable := [("s", exSrcS), ("t", exSrcT)]

/-- A cycle with typed text `ab`, cursor at column 3. -/
def exCtx1 : Ctx := { typed := "ab", col := 3, filetype := "ft", scope := none }

/-- A later cycle with typed text `cd`, cursor at column 3. -/
def exCtx2 : Ctx := { typed := "cd", col := 3, filetype := "ft", scope := none }

/-- A cycle with typed text `a`, cursor at column 1. -/
def exCtxA : Ctx := { typed := "a", col := 1, filetype := "ft", scope := none }

/-- A cycle with empty typed text, cursor at column 1. -/
def exCtxE : Ctx := { typed := "", col := 1, filetype := "ft", scope := none }

/-- Source `s` reports `abX` for the `ab` cycle. -/
def cexStp1 : StepOut :=
  cm_complete initState exSrcs "s" exCtx1 1
    [RawItem.dict { word := some "abX", menu := some "m", info := none }]

/-- The timeout fires, merging and showing the popup for the `ab` cycle. -/
def cexStp2 : StepOut := cm_complete_timeout cexStp1.st exCtx1

/-- Source `s` reports a malformed candidate (no `word`) for the `cd`
cycle: `cm_complete` raises, but the `finally` block has already stored the
raw matches while the stale `last_matches` from the `ab` cycle survive. -/
def cexStp3 : StepOut :=
  cm_complete cexStp2.st exSrcs "s" exCtx2 1
    [RawItem.dict { word := none, menu := some "m", info := none }]

/-- Source `t` reports `cdY` for the `cd` cycle; the popup is shown, so an
immediate merge runs: reprocessing `s` raises and is swallowed, and the
stale `abX` record is padded and emitted next to `cdY`. -/
def cexStp4 : StepOut := cm_complete cexStp3.st exSrcs "t" exCtx2 1 [RawItem.str "cdY"]

/-- A source descriptor with an abbreviation. -/
def exSrcAb : SourceInfo :=
  { name := some "a", priority := some 1, scopes := none, refresh := 0,
    cm_refresh := false, channels := [], abbreviation := some "X" }

/-- A one-source table whose source has abbreviation `X`. -/
def exSrcsAb : SrcTable := [("a", exSrcAb)]

/-- A handler state in which the popup has already been shown this cycle
and no matches are stored. -/
def exPopupSt : HandlerState :=
  { «matches» := [], sources := exSrcs, last_matches := [], has_popped_up := true }

/-- A handler state holding one stored source with raw match `ab`. -/
def exStoredSt : HandlerState :=
  { «matches» := [("s", { startcol := 1, «matches» := [RawItem.str "ab"], last_matches := none })],
    sources := [("s", exSrcS)], last_matches := [], has_popped_up := false }

/-- A handler state holding two stored sources at different startcols. -/
def exTwoColSt : HandlerState :=
  { «matches» := [("s", { startcol := 1, «matches» := [RawItem.str "ab"], last_matches := none }),
                ("t", { startcol := 3, «matches» := [RawItem.str "c"], last_matches := none })],
    sources := exSrcs, last_matches := [], has_popped_up := false }

/-- A handler state whose stored source name has no descriptor in the
current source table. -/
def exOrphanSt : HandlerState :=
  { «matches» := [("u", { startcol := 1, «matches» := [RawItem.str "ab"], last_matches := none })],
    sources := exSrcs, last_matches := [], has_popped_up := false }

/-- Version identifier V1. -/
def exV1 : FCtx := { changedtick := 1, curpos := [1, 4] }

/-- Version identifier V2 (one edit later). -/
def exV2 : FCtx := { changedtick := 2, curpos := [1, 5] }

/-- Editor state while the live context is still V1 with content `abc`. -/
def exNvimV1 : NvimState := { context := exV1, buffer := ["abc"] }

/-- Editor state after the live context advanced to V2 with content
`abcd`. -/
def exNvimV2 : NvimState := { context := exV2, buffer := ["abcd"] }

/-- File-server state whose cache was built at V1 with content `abc`. -/
def exFsV1 : FileServerState :=
  { current_context := some exV1, cache_context := some exV1, cache_src := "abc" }

/-- An empty file-server state (nothing known yet). -/
def exFsEmpty : FileServerState :=
  { current_context := none, cache_context := none, cache_src := "" }

/-- First empty merge cycle: the timeout fires on a fresh handler with no
stored matches. -/
def emptyCycle1 : StepOut := cm_complete_timeout initState exCtx1

/-- The merge performed inside `emptyCycle1`. -/
def emptyCycle1Merge : Except String MergeOut := _refresh_completions initState exCtx1

/-- Second empty merge cycle: a refresh with an empty source table merges
immediately. -/
def emptyCycle2 : RefreshOut := cm_refresh emptyCycle1.st [] exCtx1

/-- The merge performed inside `emptyCycle2` (the state `cm_refresh` hands
to `_refresh_completions` after storing the sources and resetting the
popup flag). -/
def emptyCycle2Merge : Except String MergeOut :=
  _refresh_completions { emptyCycle1.st with sources := [], has_popped_up := false } exCtx1

/-- The merge-relevant part of a stored entry: everything except the
`last_matches` cache. -/
def stripE (e : MatchEntry) : Nat × List RawItem := (e.startcol, e.«matches»)

/-- Whether a stored source qualifies for the running-minimum startcol of a
merge: its startcol does not exceed the context's column and reprocessing
its raw matches succeeds with a non-empty result. -/
def qualB (srcs : SrcTable) (ctx : Ctx) (n : String) (e : MatchEntry) : Bool :=
  decide (e.startcol ≤ ctx.col) &&
    (match process_matches srcs n ctx e.startcol e.«matches» with
     | Except.ok pm => !pm.isEmpty
     | Except.error _ => false)

/-- The qualifying startcol a stored name contributes, read through the
dictionary. -/
def qualColOf (srcs : SrcTable) (ctx : Ctx) (m : MState) (n : String) : Option Nat :=
  match lookupEntry m n with
  | none => none
  | some e => if qualB srcs ctx n e then some e.startcol else none

/-- The startcols of the stored sources with valid startcol and non-empty
reprocessed matches, in storage order. -/
def qualCols (srcs : SrcTable) (ctx : Ctx) (m : MState) : List Nat :=
  m.filterMap (fun p => if qualB srcs ctx p.1 p.2 then some p.2.startcol else none)

/-- The `last_matches` value the first merge loop writes for one entry
when its reprocessing does not raise: empty for an invalid startcol, the
reprocessed list otherwise. -/
def loop1ValueOf (srcs : SrcTable) (ctx : Ctx) (n : String) (e : MatchEntry) : List PMatch :=
  if ctx.col < e.startcol then []
  else pyCatch (process_matches srcs n ctx e.startcol e.«matches») []

/-- The padded candidates one stored name contributes to the output of the
second merge loop. -/
def contribOf (ctx : Ctx) (gstart : Nat) (m : MState) (n : String) : List PMatch :=
  match lookupEntry m n with
  | none => []
  | some e =>
    if ctx.col < e.startcol then []
    else
      match e.last_matches with
      | none => []
      | some lm => padWords (pySlice ctx.typed (gstart - 1) (e.startcol - 1)) lm

/-- Whether a stored name can be priority-sorted: its descriptor exists in
the source table and carries a priority. -/
def priorityOkB (srcs : SrcTable) (n : String) : Bool :=
  match lookupSrc srcs n with
  | some s => s.priority.isSome
  | none => false

/-- A descriptor whose dictionary lacks the `'name'` entry: its loop body
raises `KeyError` after the scope check passes. -/
def ex9Bad : String × SourceInfo :=
  ("b", { name := none, priority := some 1, scopes := none, refresh := 0,
          cm_refresh := false, channels := [], abbreviation := none })

/-- A well-formed descriptor queued for both direct invocation and a
channel notification. -/
def ex9Good : String × SourceInfo :=
  ("g", { name := some "g", priority := some 1, scopes := none, refresh := 0,
          cm_refresh := true, channels := [some 7], abbreviation := none })

/-- A stored state in which source `p` has a malformed raw candidate (no
`word`, so reprocessing raises) while `q` is well-formed. -/
def ex9M : MState :=
  [("p", { startcol := 1, «matches» := [RawItem.dict { word := none, menu := some "m", info := none }],
           last_matches := none }),
   ("q", { startcol := 1, «matches» := [RawItem.str "ab"], last_matches := none })]

/-- A stored state in which source `p` has no `last_matches` key (its read
in the second merge loop raises) while `q` has one. -/
def ex9M2 : MState :=
  [("p", { startcol := 1, «matches» := [], last_matches := none }),
   ("q", { startcol := 1, «matches» := [], last_matches := some [{ word := "ab", menu := "", info := none }] })]

/-! ### Theorems -/

deriving instance DecidableEq for Except


/-- Claim C4: for every requested version, if the stored last-known context
does not match the request (so the live context is re-queried) and the
re-queried live context still does not match it, `get_src` returns `none`
rather than any cached content or an error. -/
theorem get_src_stale_returns_absent (nvim : NvimState) (st : FileServerState) (context : FCtx)
    (hreq : _context_changed st.current_context (some context) = true)
    (hlive : _context_changed (some nvim.context) (some context) = true) :
    (get_src nvim st context).1 = none := by
  unfold get_src
  simp only [hreq, if_true, hlive]

/-- Witness for `get_src_stale_returns_absent` at a concrete stale
request. -/
theorem get_src_stale_returns_absent_witness :
    (get_src exNvimV1 exFsEmpty exV2).1 = none :=
  get_src_stale_returns_absent exNvimV1 exFsEmpty exV2 (by decide) (by decide)

/-- Claim C3 counterexample: with the cache built at V1 holding `abc` and
the live context still V1, `get_src` for V2 returns `none`, not `abc` as
the claim states. -/
theorem scenarioB_stale_get_counterexample :
    (get_src exNvimV1 exFsV1 exV2).1 = none ∧ (get_src exNvimV1 exFsV1 exV2).1 ≠ some "abc" := by
  decide

/-- Claim C3 as amended: with the cache built at V1 holding `abc`, a get
for V2 while the live context is still V1 returns absent; after the live
context advances to V2 and the document becomes `abcd`, a subsequent get
for V2 rebuilds the cache and returns `abcd`. -/
theorem scenarioB_corrected :
    (get_src exNvimV1 exFsV1 exV2).1 = none ∧
    (get_src exNvimV2 (get_src exNvimV1 exFsV1 exV2).2 exV2).1 = some "abcd" ∧
    (get_src exNvimV2 (get_src exNvimV1 exFsV1 exV2).2 exV2).2.cache_src = "abcd" ∧
    (get_src exNvimV2 (get_src exNvimV1 exFsV1 exV2).2 exV2).2.cache_context = some exV2 := by
  decide

/-- Claim C6 counterexample: a candidate lacking `menu`, with a present but
empty `info` (length 0, hence shorter than 70), from a source whose
abbreviation is `X`, gets menu `X` — not `X :` (that is,
`abbreviation ++ " :" ++ info`) as the claim states. -/
theorem menu_empty_info_counterexample :
    process_matches exSrcsAb "a" exCtxE 1
        [RawItem.dict { word := some "w", menu := none, info := some "" }] =
      Except.ok [{ word := "w", menu := "X", info := some "" }] ∧
    ("X" : String) ≠ "X" ++ " :" ++ "" := by
  decide

/-- Claim C2 counterexample: two consecutive merge cycles that each
produce an empty result trigger zero external emissions across the pair,
not exactly one as the claim states (`self._last_matches` is never
reassigned, so the suppression check always sees an empty previous
list). -/
theorem consecutive_empty_merges_zero_emissions :
    emptyCycle1Merge.toOption.map MergeOut.merged = some [] ∧
    emptyCycle2Merge.toOption.map MergeOut.merged = some [] ∧
    emptyCycle1.refreshed = true ∧ emptyCycle2.refreshed = true ∧
    emptyCycle1.emits = [] ∧ emptyCycle2.emits = [] ∧
    emptyCycle1.emits.length + emptyCycle2.emits.length ≠ 1 := by
  decide

/-- Claim C2 as amended: since `self._last_matches` is initialised empty
and never reassigned, whenever the handler state has an empty
`last_matches` field the merge result is emitted iff the newly merged list
is non-empty; in particular two consecutive empty merge cycles trigger
zero emissions. -/
theorem merge_emitted_iff_nonempty (st : HandlerState) (ctx : Ctx)
    (h : st.last_matches = []) :
    match _refresh_completions st ctx with
    | Except.ok mo => mo.emitted = !mo.merged.isEmpty
    | Except.error _ => True := by
  unfold _refresh_completions
  cases hs : sortNamesByPriority st.sources st.matches with
  | error e => simp
  | ok names =>
    by_cases hn : names.isEmpty
    · simp [hn, _completeB, h]
    · simp [hn, _completeB, h]

/-- Witness for `merge_emitted_iff_nonempty` at a concrete stored state. -/
theorem merge_emitted_iff_nonempty_witness :
    match _refresh_completions exStoredSt exCtx1 with
    | Except.ok mo => mo.emitted = !mo.merged.isEmpty
    | Except.error _ => True :=
  merge_emitted_iff_nonempty exStoredSt exCtx1 rfl

/-- Claim C6 as amended: for a candidate lacking `menu` (with `word`
present): a present, NON-EMPTY `info` shorter than 70 characters yields
`abbreviation ++ " :" ++ info` when the source's abbreviation is non-empty
and `info` alone otherwise; with no `info`, or an empty `info`, or an
`info` of 70 or more characters, the menu becomes the source's abbreviation
(possibly the empty string). -/
theorem menu_defaulting_rule (srcs : SrcTable) (name : String) (src : SourceInfo)
    (hsrc : lookupSrc srcs name = some src) (w : String) :
    (∀ i : String, i ≠ "" → i.length < 70 → src.abbreviation.getD "" ≠ "" →
      procItem srcs name (RawItem.dict { word := some w, menu := none, info := some i }) =
        Except.ok { word := w, menu := src.abbreviation.getD "" ++ " :" ++ i, info := some i }) ∧
    (∀ i : String, i ≠ "" → i.length < 70 → src.abbreviation.getD "" = "" →
      procItem srcs name (RawItem.dict { word := some w, menu := none, info := some i }) =
        Except.ok { word := w, menu := i, info := some i }) ∧
    (procItem srcs name (RawItem.dict { word := some w, menu := none, info := none }) =
      Except.ok { word := w, menu := src.abbreviation.getD "", info := none }) ∧
    (∀ i : String, i = "" ∨ 70 ≤ i.length →
      procItem srcs name (RawItem.dict { word := some w, menu := none, info := some i }) =
        Except.ok { word := w, menu := src.abbreviation.getD "", info := some i }) := by
  refine ⟨?_, ?_, ?_, ?_⟩
  · intro i hi hlen hab
    simp [procItem, deriveMenu, lookupSrcE, hsrc, hi, hlen, hab]
  · intro i hi hlen hab
    simp [procItem, deriveMenu, lookupSrcE, hsrc, hi, hlen, hab]
  · simp [procItem, deriveMenu, lookupSrcE, hsrc]
  · intro i hi
    have hcond : (i != "" && decide (i.length < 70)) = false := by
      rcases hi with h | h
      · simp [h]
      · simp [Nat.not_lt.mpr h]
    simp [procItem, deriveMenu, lookupSrcE, hsrc, hcond]

/-- Witness for `menu_defaulting_rule`: the combined form and the
abbreviation-only form at a concrete source with abbreviation `X`. -/
theorem menu_defaulting_rule_witness :
    procItem exSrcsAb "a" (RawItem.dict { word := some "w", menu := none, info := some "hi" }) =
      Except.ok { word := "w", menu := "X :hi", info := some "hi" } ∧
    procItem exSrcsAb "a" (RawItem.dict { word := some "w", menu := none, info := none }) =
      Except.ok { word := "w", menu := "X", info := none } :=
  ⟨(menu_defaulting_rule exSrcsAb "a" exSrcAb rfl "w").1 "hi" (by decide) (by decide) (by decide),
   (menu_defaulting_rule exSrcsAb "a" exSrcAb rfl "w").2.2.1⟩

/-- Claim C8 counterexample: the popup has already been shown this cycle,
yet a `cm_complete` whose processed result is empty while no previously
stored processed result exists returns early: no merge, no emission. -/
theorem popup_shown_inert_counterexample :
    exPopupSt.has_popped_up = true ∧
    (cm_complete exPopupSt exSrcs "s" exCtxA 1 [RawItem.str "zzz"]).refreshed = false ∧
    (cm_complete exPopupSt exSrcs "s" exCtxA 1 [RawItem.str "zzz"]).emits = [] := by
  decide

/-- Claim C8 as amended: a `cm_complete` invocation ends with an immediate
merge (`_refresh_completions`) iff the popup has already been shown this
cycle AND the response processes without an exception AND the early-return
guard does not fire, i.e. the processed result is non-empty or the
previously stored processed result for this source was non-empty. -/
theorem cm_complete_refresh_exact_condition (st : HandlerState) (srcs : SrcTable) (name : String)
    (ctx : Ctx) (startcol : Nat) (ms : List RawItem) :
    (cm_complete st srcs name ctx startcol ms).refreshed =
      (st.has_popped_up &&
        match process_matches srcs name ctx startcol ms with
        | Except.ok result =>
          !(result.isEmpty &&
            (((lookupEntry st.matches name).bind MatchEntry.last_matches).getD []).isEmpty)
        | Except.error _ => false) := by
  unfold cm_complete
  cases hp : process_matches srcs name ctx startcol ms with
  | error e => simp
  | ok result =>
    by_cases hr : (result.isEmpty &&
        (((lookupEntry st.matches name).bind MatchEntry.last_matches).getD []).isEmpty) = true
    · simp [hr]
    · have hr' : (result.isEmpty &&
          (((lookupEntry st.matches name).bind MatchEntry.last_matches).getD []).isEmpty) = false :=
        eq_false_of_ne_true hr
      by_cases hpop : st.has_popped_up = true
      · cases hm : _refresh_completions
            { st with sources := srcs,
                      «matches» := storeMatches st.matches name startcol ms } ctx with
        | error e => rw [hpop] at hm; simp [hr', hpop, hm]
        | ok mo => rw [hpop] at hm; simp [hr', hpop, hm]
      · have hpop' : st.has_popped_up = false := eq_false_of_ne_true hpop
        simp [hr', hpop']

/-! ### Dictionary lemmas -/

theorem lookupEntry_erase_self (m : MState) (n : String) :
    lookupEntry (eraseEntry m n) n = none := by
  induction m with
  | nil => rfl
  | cons p t ih =>
    by_cases h : p.1 = n
    · simpa [eraseEntry, List.filter_cons, h] using ih
    · have hb : (p.1 != n) = true := by simp [h]
      have hb2 : (p.1 == n) = false := by simp [h]
      simp only [eraseEntry, List.filter_cons, hb, if_true]
      simpa [lookupEntry, List.find?, hb2] using ih

theorem lookupEntry_map_update (m : MState) (n : String) (f : MatchEntry → MatchEntry) :
    lookupEntry (m.map (fun p => if p.1 == n then (p.1, f p.2) else p)) n
      = (lookupEntry m n).map f := by
  induction m with
  | nil => rfl
  | cons p t ih =>
    by_cases h : p.1 = n
    · simp [lookupEntry, List.find?, h]
    · have hb : (p.1 == n) = false := by simp [h]
      simp only [List.map_cons, hb, Bool.false_eq_true, if_false]
      simp only [lookupEntry, List.find?, hb] at ih ⊢
      exact ih

theorem lookupEntry_map_update_ne (m : MState) (k n : String) (hkn : k ≠ n)
    (f : MatchEntry → MatchEntry) :
    lookupEntry (m.map (fun p => if p.1 == k then (p.1, f p.2) else p)) n = lookupEntry m n := by
  induction m with
  | nil => rfl
  | cons p t ih =>
    by_cases h : p.1 = k
    · have hb : (p.1 == k) = true := by simp [h]
      have hn : (p.1 == n) = false := by simp [h, hkn]
      simp only [List.map_cons, hb, if_true]
      simp only [lookupEntry, List.find?, hn] at ih ⊢
      exact ih
    · have hb : (p.1 == k) = false := by simp [h]
      simp only [List.map_cons, hb, Bool.false_eq_true, if_false]
      by_cases h2 : p.1 = n
      · simp [lookupEntry, List.find?, h2]
      · have hn : (p.1 == n) = false := by simp [h2]
        simp only [lookupEntry, List.find?, hn] at ih ⊢
        exact ih

theorem lookupEntry_append_single (m : MState) (n : String) (e : MatchEntry)
    (h : lookupEntry m n = none) :
    lookupEntry (m ++ [(n, e)]) n = some e := by
  induction m with
  | nil =>
    show (List.find? (fun p => p.1 == n) [(n, e)]).map Prod.snd = some e
    rw [List.find?_cons_of_pos _ (by simp)]
    rfl
  | cons p t ih =>
    by_cases hp : p.1 = n
    · simp [lookupEntry, List.find?, hp] at h
    · have hb : (p.1 == n) = false := by simp [hp]
      rw [List.cons_append]
      have hh : lookupEntry t n = none := by
        simpa [lookupEntry, List.find?, hb] using h
      simpa [lookupEntry, List.find?, hb] using ih hh

theorem lookupEntry_updateStore_self (m : MState) (n : String) (sc : Nat) (raw : List RawItem) :
    lookupEntry (updateStore m n sc raw) n =
      some { startcol := sc, «matches» := raw,
             last_matches := (lookupEntry m n).bind MatchEntry.last_matches } := by
  cases hl : lookupEntry m n with
  | none =>
    simp only [updateStore, hl]
    simpa using lookupEntry_append_single m n _ hl
  | some e0 =>
    simp only [updateStore, hl]
    rw [lookupEntry_map_update m n (fun q => { q with startcol := sc, «matches» := raw })]
    simp [hl]

theorem lookupEntry_storeMatches_self (m : MState) (n : String) (sc : Nat) (raw : List RawItem) :
    lookupEntry (storeMatches m n sc raw) n =
      if raw.isEmpty then none
      else some { startcol := sc, «matches» := raw,
                  last_matches := (lookupEntry m n).bind MatchEntry.last_matches } := by
  by_cases h : raw.isEmpty
  · simp [storeMatches, h, lookupEntry_erase_self]
  · simp [storeMatches, h, lookupEntry_updateStore_self]

theorem lookup_setLast_self (m : MState) (k : String) (v : List PMatch) :
    lookupEntry (setLast m k v) k
      = (lookupEntry m k).map (fun e => { e with last_matches := some v }) := by
  unfold setLast
  exact lookupEntry_map_update m k (fun e => { e with last_matches := some v })

theorem lookup_setLast_ne (m : MState) (k n : String) (hkn : k ≠ n) (v : List PMatch) :
    lookupEntry (setLast m k v) n = lookupEntry m n := by
  unfold setLast
  exact lookupEntry_map_update_ne m k n hkn (fun e => { e with last_matches := some v })

theorem lookup_setLast_strip (m : MState) (k : String) (v : List PMatch) (n : String) :
    (lookupEntry (setLast m k v) n).map stripE = (lookupEntry m n).map stripE := by
  by_cases h : k = n
  · subst h
    rw [lookup_setLast_self]
    cases lookupEntry m k <;> simp [stripE]
  · rw [lookup_setLast_ne m k n h]

/-! ### The merge loops only rewrite `last_matches` -/

theorem loop1Body_strip (srcs : SrcTable) (ctx : Ctx) (acc : MState × Nat) (k : String)
    (v : MState × Nat) (h : loop1Body srcs ctx acc k = Except.ok v) (n : String) :
    (lookupEntry v.1 n).map stripE = (lookupEntry acc.1 n).map stripE := by
  unfold loop1Body at h
  cases hl : lookupEntry acc.1 k with
  | none => simp [hl] at h
  | some e =>
    simp only [hl] at h
    split at h
    · injection h with hv
      subst hv
      exact lookup_setLast_strip acc.1 k [] n
    · cases hp : process_matches srcs k ctx e.startcol e.«matches» with
      | error err => rw [hp] at h; simp at h
      | ok pm =>
        simp only [hp] at h
        split at h
        · injection h with hv
          subst hv
          exact lookup_setLast_strip acc.1 k pm n
        · split at h
          · injection h with hv
            subst hv
            exact lookup_setLast_strip acc.1 k pm n
          · injection h with hv
            subst hv
            exact lookup_setLast_strip acc.1 k pm n

theorem loop2Body_strip (ctx : Ctx) (gstart : Nat) (acc : MState × List PMatch) (k : String)
    (v : MState × List PMatch) (h : loop2Body ctx gstart acc k = Except.ok v) (n : String) :
    (lookupEntry v.1 n).map stripE = (lookupEntry acc.1 n).map stripE := by
  unfold loop2Body at h
  cases hl : lookupEntry acc.1 k with
  | none => simp [hl] at h
  | some e =>
    simp only [hl] at h
    split at h
    · injection h with hv
      subst hv
      rfl
    · cases hlm : e.last_matches with
      | none => rw [hlm] at h; simp at h
      | some lm =>
        simp only [hlm] at h
        injection h with hv
        subst hv
        exact lookup_setLast_strip acc.1 k _ n

theorem refreshLoop1_fold_strip (srcs : SrcTable) (ctx : Ctx) (names : List String)
    (acc : MState × Nat) (n : String) :
    (lookupEntry (names.foldl (fun a k => pyCatch (loop1Body srcs ctx a k) a) acc).1 n).map stripE
      = (lookupEntry acc.1 n).map stripE := by
  induction names generalizing acc with
  | nil => rfl
  | cons k t ih =>
    rw [List.foldl_cons]
    refine (ih _).trans ?_
    cases hb : loop1Body srcs ctx acc k with
    | error e => simp [pyCatch, hb]
    | ok v =>
      simp only [pyCatch, hb]
      exact loop1Body_strip srcs ctx acc k v hb n

theorem refreshLoop2_fold_strip (ctx : Ctx) (gstart : Nat) (names : List String)
    (acc : MState × List PMatch) (n : String) :
    (lookupEntry (names.foldl (fun a k => pyCatch (loop2Body ctx gstart a k) a) acc).1 n).map stripE
      = (lookupEntry acc.1 n).map stripE := by
  induction names generalizing acc with
  | nil => rfl
  | cons k t ih =>
    rw [List.foldl_cons]
    refine (ih _).trans ?_
    cases hb : loop2Body ctx gstart acc k with
    | error e => simp [pyCatch, hb]
    | ok v =>
      simp only [pyCatch, hb]
      exact loop2Body_strip ctx gstart acc k v hb n

theorem refreshLoop1_strip (srcs : SrcTable) (ctx : Ctx) (m : MState) (names : List String)
    (n : String) :
    (lookupEntry (refreshLoop1 srcs ctx m names).1 n).map stripE
      = (lookupEntry m n).map stripE :=
  refreshLoop1_fold_strip srcs ctx names (m, ctx.col) n

theorem refreshLoop2_strip (ctx : Ctx) (gstart : Nat) (m : MState) (names : List String)
    (n : String) :
    (lookupEntry (refreshLoop2 ctx gstart m names).1 n).map stripE
      = (lookupEntry m n).map stripE :=
  refreshLoop2_fold_strip ctx gstart names (m, []) n

theorem refresh_completions_strip (st : HandlerState) (ctx : Ctx) (mo : MergeOut)
    (h : _refresh_completions st ctx = Except.ok mo) (n : String) :
    (lookupEntry mo.st.matches n).map stripE = (lookupEntry st.matches n).map stripE := by
  unfold _refresh_completions at h
  cases hs : sortNamesByPriority st.sources st.matches with
  | error e => rw [hs] at h; simp at h
  | ok names =>
    simp only [hs] at h
    by_cases hn : names.isEmpty
    · rw [if_pos hn] at h
      injection h with hv
      subst hv
      rfl
    · rw [if_neg hn] at h
      injection h with hv
      subst hv
      exact (refreshLoop2_strip ctx _ _ names n).trans (refreshLoop1_strip st.sources ctx st.matches names n)

theorem cm_complete_matches_strip (st : HandlerState) (srcs : SrcTable) (name : String)
    (ctx : Ctx) (startcol : Nat) (ms : List RawItem) (n : String) :
    (lookupEntry (cm_complete st srcs name ctx startcol ms).st.matches n).map stripE
      = (lookupEntry (storeMatches st.matches name startcol ms) n).map stripE := by
  unfold cm_complete
  cases hp : process_matches srcs name ctx startcol ms with
  | error e => rfl
  | ok result =>
    simp only []
    by_cases hr : (result.isEmpty &&
        (((lookupEntry st.matches name).bind MatchEntry.last_matches).getD []).isEmpty) = true
    · rw [if_pos hr]
    · rw [if_neg hr]
      by_cases hpop : st.has_popped_up = true
      · rw [if_pos hpop]
        cases hm : _refresh_completions
            { st with sources := srcs,
                      «matches» := storeMatches st.matches name startcol ms } ctx with
        | error e => rfl
        | ok mo => exact refresh_completions_strip _ ctx mo hm n
      · rw [if_neg hpop]

/-- Claim C7: every `cm_complete` call persists the per-source state before
any early return takes effect: a non-empty raw list leaves an entry for the
name holding exactly the new startcol and new raw matches, and an empty raw
list leaves the entry absent — on every path, the inert early-return and
the exception path included. -/
theorem cm_complete_always_persists (st : HandlerState) (srcs : SrcTable) (name : String)
    (ctx : Ctx) (startcol : Nat) (ms : List RawItem) :
    (ms = [] → lookupEntry (cm_complete st srcs name ctx startcol ms).st.matches name = none) ∧
    (ms ≠ [] → ∃ e, lookupEntry (cm_complete st srcs name ctx startcol ms).st.matches name = some e ∧
        e.startcol = startcol ∧ e.«matches» = ms) := by
  have hs := cm_complete_matches_strip st srcs name ctx startcol ms name
  rw [lookupEntry_storeMatches_self] at hs
  constructor
  · intro hms
    subst hms
    simp only [List.isEmpty_nil, if_true] at hs
    exact Option.map_eq_none'.mp hs
  · intro hms
    have hne : ms.isEmpty = false := List.isEmpty_eq_false.mpr hms
    rw [hne] at hs
    simp only [Bool.false_eq_true, if_false] at hs
    cases hl : lookupEntry (cm_complete st srcs name ctx startcol ms).st.matches name with
    | none => rw [hl] at hs; simp at hs
    | some e =>
      rw [hl] at hs
      simp only [Option.map_some'] at hs
      exact ⟨e, rfl, congrArg Prod.fst (Option.some.inj hs),
             congrArg Prod.snd (Option.some.inj hs)⟩

/-- Witness for `cm_complete_always_persists`: the deletion conjunct at an
empty response and the overwrite conjunct at a one-item response. -/
theorem cm_complete_always_persists_witness :
    lookupEntry (cm_complete initState exSrcs "s" exCtx1 1 []).st.matches "s" = none ∧
    (∃ e, lookupEntry (cm_complete initState exSrcs "s" exCtx1 2 [RawItem.str "q"]).st.matches "s"
        = some e ∧ e.startcol = 2 ∧ e.«matches» = [RawItem.str "q"]) :=
  ⟨(cm_complete_always_persists initState exSrcs "s" exCtx1 1 []).1 rfl,
   (cm_complete_always_persists initState exSrcs "s" exCtx1 2 [RawItem.str "q"]).2 (by decide)⟩

theorem priorityKeys_ok (srcs : SrcTable) (ns : List String)
    (h : ∀ n ∈ ns, priorityOkB srcs n = true) :
    ∃ keyed, priorityKeys srcs ns = Except.ok keyed ∧ keyed.map Prod.fst = ns := by
  induction ns with
  | nil => exact ⟨[], rfl, rfl⟩
  | cons n t ih =>
    have hn := h n (List.mem_cons_self n t)
    unfold priorityOkB at hn
    cases hl : lookupSrc srcs n with
    | none => simp [hl] at hn
    | some s =>
      simp only [hl] at hn
      cases hp : s.priority with
      | none => simp [hp] at hn
      | some p =>
        obtain ⟨keyed, hk, hm⟩ := ih (fun x hx => h x (List.mem_cons_of_mem n hx))
        refine ⟨(n, p) :: keyed, ?_, ?_⟩
        · simp only [priorityKeys, hl, hp, hk]
        · simpa using hm

theorem priorityKeys_fails (srcs : SrcTable) (ns : List String)
    (h : ∃ n ∈ ns, lookupSrc srcs n = none) :
    ∃ e, priorityKeys srcs ns = Except.error e := by
  induction ns with
  | nil => simp at h
  | cons n t ih =>
    by_cases hn : lookupSrc srcs n = none
    · refine ⟨"KeyError: " ++ n, ?_⟩
      simp only [priorityKeys, hn]
    · cases hl : lookupSrc srcs n with
      | none => exact absurd hl hn
      | some s =>
        have hmem : ∃ x ∈ t, lookupSrc srcs x = none := by
          obtain ⟨x, hx, hxn⟩ := h
          rcases List.mem_cons.mp hx with rfl | hxt
          · exact absurd hxn hn
          · exact ⟨x, hxt, hxn⟩
        cases hp : s.priority with
        | none =>
          refine ⟨"KeyError: priority", ?_⟩
          simp only [priorityKeys, hl, hp]
        | some p =>
          obtain ⟨e, he⟩ := ih hmem
          refine ⟨e, ?_⟩
          simp only [priorityKeys, hl, hp, he]

/-- Claim C10: the priority sort of `_refresh_completions` looks every
stored name up in the current source table outside any exception guard:
when every stored name has a descriptor carrying a priority, the merge
runs to completion without an uncaught fault; when some stored name has no
descriptor, the whole merge aborts with the lookup fault before any
per-source processing and nothing is emitted. -/
theorem priority_sort_unguarded (st : HandlerState) (ctx : Ctx) :
    ((∀ n ∈ st.matches.map Prod.fst, priorityOkB st.sources n = true) →
      ∃ mo, _refresh_completions st ctx = Except.ok mo) ∧
    ((∃ n ∈ st.matches.map Prod.fst, lookupSrc st.sources n = none) →
      ∃ e, _refresh_completions st ctx = Except.error e) := by
  constructor
  · intro h
    obtain ⟨keyed, hk, hm⟩ := priorityKeys_ok st.sources (st.matches.map Prod.fst) h
    have hs : sortNamesByPriority st.sources st.matches
        = Except.ok ((sortDesc keyed).map Prod.fst) := by
      simp only [sortNamesByPriority, hk]
    simp only [_refresh_completions, hs]
    by_cases hn : ((sortDesc keyed).map Prod.fst).isEmpty
    · rw [if_pos hn]
      exact ⟨_, rfl⟩
    · rw [if_neg hn]
      exact ⟨_, rfl⟩
  · intro h
    obtain ⟨e, he⟩ := priorityKeys_fails st.sources (st.matches.map Prod.fst) h
    refine ⟨e, ?_⟩
    simp only [_refresh_completions, sortNamesByPriority, he]

/-- Witness for `priority_sort_unguarded`: a state whose stored sources
all carry priorities merges without fault, and a state with an orphan
stored name aborts. -/
theorem priority_sort_unguarded_witness :
    (∃ mo, _refresh_completions exTwoColSt exCtx1 = Except.ok mo) ∧
    (∃ e, _refresh_completions exOrphanSt exCtx1 = Except.error e) :=
  ⟨(priority_sort_unguarded exTwoColSt exCtx1).1 (by decide),
   (priority_sort_unguarded exOrphanSt exCtx1).2 (by decide)⟩

theorem pyCatch_fold_skip {α β : Type} (f : β → α → Except String β) (xs ys : List α)
    (bad : α) (init : β)
    (h : exceptOk (f (xs.foldl (fun a k => pyCatch (f a k) a) init) bad) = false) :
    (xs ++ bad :: ys).foldl (fun a k => pyCatch (f a k) a) init
      = (xs ++ ys).foldl (fun a k => pyCatch (f a k) a) init := by
  rw [List.foldl_append, List.foldl_append, List.foldl_cons]
  have hstep : pyCatch (f (xs.foldl (fun a k => pyCatch (f a k) a) init) bad)
      (xs.foldl (fun a k => pyCatch (f a k) a) init)
      = xs.foldl (fun a k => pyCatch (f a k) a) init := by
    cases hf : f (xs.foldl (fun a k => pyCatch (f a k) a) init) bad with
    | ok v => rw [hf] at h; simp [exceptOk] at h
    | error e => simp [pyCatch, hf]
  rw [hstep]

/-- Claim C9: a per-source exception is caught by the enclosing loop and
only skips that source's contribution: in the descriptor loop of
`cm_refresh` and in both per-name loops of `_refresh_completions`, running
the loop over a list containing a source whose guarded body raises (at the
accumulator actually reached) gives exactly the result of running it with
that source removed — the remaining sources are still processed and the
exception never escapes the loop (the loops are total functions). -/
theorem per_source_fault_isolated :
    (∀ (m : MState) (ctx : Ctx) (xs ys : List (String × SourceInfo)) (bad : String × SourceInfo),
      exceptOk (cm_refreshBody m ctx (cm_refreshLoop m ctx xs) bad) = false →
      cm_refreshLoop m ctx (xs ++ bad :: ys) = cm_refreshLoop m ctx (xs ++ ys)) ∧
    (∀ (srcs : SrcTable) (ctx : Ctx) (m : MState) (xs ys : List String) (bad : String),
      exceptOk (loop1Body srcs ctx (refreshLoop1 srcs ctx m xs) bad) = false →
      refreshLoop1 srcs ctx m (xs ++ bad :: ys) = refreshLoop1 srcs ctx m (xs ++ ys)) ∧
    (∀ (ctx : Ctx) (gstart : Nat) (m : MState) (xs ys : List String) (bad : String),
      exceptOk (loop2Body ctx gstart (refreshLoop2 ctx gstart m xs) bad) = false →
      refreshLoop2 ctx gstart m (xs ++ bad :: ys) = refreshLoop2 ctx gstart m (xs ++ ys)) := by
  refine ⟨?_, ?_, ?_⟩
  · intro m ctx xs ys bad h
    exact pyCatch_fold_skip (cm_refreshBody m ctx) xs ys bad ([], []) h
  · intro srcs ctx m xs ys bad h
    exact pyCatch_fold_skip (loop1Body srcs ctx) xs ys bad (m, ctx.col) h
  · intro ctx gstart m xs ys bad h
    exact pyCatch_fold_skip (loop2Body ctx gstart) xs ys bad (m, []) h

/-- Witness for `per_source_fault_isolated`: concrete failing sources in
each of the three loops are skipped while their neighbours are kept. -/
theorem per_source_fault_isolated_witness :
    cm_refreshLoop [] exCtx1 ([ex9Good] ++ ex9Bad :: [ex9Good])
      = cm_refreshLoop [] exCtx1 ([ex9Good] ++ [ex9Good]) ∧
    refreshLoop1 exSrcs exCtx1 ex9M (["q"] ++ "p" :: ["q"])
      = refreshLoop1 exSrcs exCtx1 ex9M (["q"] ++ ["q"]) ∧
    refreshLoop2 exCtx1 1 ex9M2 (["q"] ++ "p" :: ["q"])
      = refreshLoop2 exCtx1 1 ex9M2 (["q"] ++ ["q"]) :=
  ⟨per_source_fault_isolated.1 [] exCtx1 [ex9Good] [ex9Good] ex9Bad (by decide),
   per_source_fault_isolated.2.1 exSrcs exCtx1 ex9M ["q"] ["q"] "p" (by decide),
   per_source_fault_isolated.2.2 exCtx1 1 ex9M2 ["q"] ["q"] "p" (by decide)⟩

/-! ### The running-minimum startcol of the first merge loop -/

theorem qualB_strip (srcs : SrcTable) (ctx : Ctx) (n : String) (e e' : MatchEntry)
    (h : stripE e = stripE e') : qualB srcs ctx n e = qualB srcs ctx n e' := by
  have h1 : e.startcol = e'.startcol := congrArg Prod.fst h
  have h2 : e.«matches» = e'.«matches» := congrArg Prod.snd h
  unfold qualB
  rw [h1, h2]

theorem qualColOf_setLast (srcs : SrcTable) (ctx : Ctx) (m : MState) (k : String)
    (v : List PMatch) (n : String) :
    qualColOf srcs ctx (setLast m k v) n = qualColOf srcs ctx m n := by
  have h := lookup_setLast_strip m k v n
  cases h1 : lookupEntry (setLast m k v) n with
  | none =>
    rw [h1] at h
    cases h2 : lookupEntry m n with
    | none => unfold qualColOf; rw [h1, h2]
    | some e => rw [h2] at h; simp at h
  | some e =>
    rw [h1] at h
    cases h2 : lookupEntry m n with
    | none => rw [h2] at h; simp at h
    | some e' =>
      rw [h2] at h
      simp only [Option.map_some'] at h
      have hs := Option.some.inj h
      have hsc : e.startcol = e'.startcol := congrArg Prod.fst hs
      unfold qualColOf
      rw [h1, h2]
      show (if qualB srcs ctx n e = true then some e.startcol else none)
        = (if qualB srcs ctx n e' = true then some e'.startcol else none)
      rw [qualB_strip srcs ctx n e e' hs, hsc]

theorem minFold_congr (srcs : SrcTable) (ctx : Ctx) (m m' : MState) (t : List String) (sc : Nat)
    (h : ∀ k, qualColOf srcs ctx m k = qualColOf srcs ctx m' k) :
    t.foldl (fun s k => match qualColOf srcs ctx m k with | some c => min s c | none => s) sc
      = t.foldl (fun s k => match qualColOf srcs ctx m' k with | some c => min s c | none => s) sc := by
  induction t generalizing sc with
  | nil => rfl
  | cons a t ih =>
    rw [List.foldl_cons, List.foldl_cons, h a]
    exact ih _

theorem refreshLoop1_startcol (srcs : SrcTable) (ctx : Ctx) (names : List String)
    (m : MState) (sc : Nat) :
    (names.foldl (fun a k => pyCatch (loop1Body srcs ctx a k) a) (m, sc)).2
      = names.foldl (fun s k => match qualColOf srcs ctx m k with
          | some c => min s c
          | none => s) sc := by
  induction names generalizing m sc with
  | nil => rfl
  | cons k t ih =>
    rw [List.foldl_cons, List.foldl_cons]
    cases hl : lookupEntry m k with
    | none =>
      have hb : pyCatch (loop1Body srcs ctx (m, sc) k) (m, sc) = (m, sc) := by
        simp [loop1Body, hl, pyCatch]
      have hq : qualColOf srcs ctx m k = none := by simp [qualColOf, hl]
      rw [hb, hq]
      exact ih m sc
    | some e =>
      by_cases hc : ctx.col < e.startcol
      · have hb : pyCatch (loop1Body srcs ctx (m, sc) k) (m, sc) = (setLast m k [], sc) := by
          simp [loop1Body, hl, hc, pyCatch]
        have hq : qualColOf srcs ctx m k = none := by
          simp [qualColOf, hl, qualB, not_le.mpr hc]
        rw [hb, hq, ih (setLast m k []) sc]
        exact minFold_congr srcs ctx _ m t sc (qualColOf_setLast srcs ctx m k [])
      · cases hp : process_matches srcs k ctx e.startcol e.«matches» with
        | error err =>
          have hb : pyCatch (loop1Body srcs ctx (m, sc) k) (m, sc) = (m, sc) := by
            simp [loop1Body, hl, hc, hp, pyCatch]
          have hq : qualColOf srcs ctx m k = none := by
            simp [qualColOf, hl, qualB, hp]
          rw [hb, hq]
          exact ih m sc
        | ok pm =>
          by_cases he : pm.isEmpty
          · have hb : pyCatch (loop1Body srcs ctx (m, sc) k) (m, sc) = (setLast m k pm, sc) := by
              simp [loop1Body, hl, hc, hp, he, pyCatch]
            have hq : qualColOf srcs ctx m k = none := by
              simp [qualColOf, hl, qualB, hp, he]
            rw [hb, hq, ih (setLast m k pm) sc]
            exact minFold_congr srcs ctx _ m t sc (qualColOf_setLast srcs ctx m k pm)
          · have hb : pyCatch (loop1Body srcs ctx (m, sc) k) (m, sc)
                = (setLast m k pm, if e.startcol < sc then e.startcol else sc) := by
              by_cases hlt : e.startcol < sc <;>
                simp [loop1Body, hl, hc, hp, he, pyCatch, hlt]
            have hq : qualColOf srcs ctx m k = some e.startcol := by
              have hle : e.startcol ≤ ctx.col := Nat.le_of_not_lt hc
              simp [qualColOf, hl, qualB, hp, he, hle]
            have hmin : (if e.startcol < sc then e.startcol else sc) = min sc e.startcol := by
              rcases Nat.lt_or_ge e.startcol sc with h | h
              · rw [if_pos h, Nat.min_eq_right (Nat.le_of_lt h)]
              · rw [if_neg (Nat.not_lt.mpr h), Nat.min_eq_left h]
            rw [hb, hq, hmin, ih (setLast m k pm) (min sc e.startcol)]
            exact minFold_congr srcs ctx _ m t _ (qualColOf_setLast srcs ctx m k pm)

theorem refreshLoop1_snd (srcs : SrcTable) (ctx : Ctx) (m : MState) (names : List String) :
    (refreshLoop1 srcs ctx m names).2
      = names.foldl (fun s k => match qualColOf srcs ctx m k with
          | some c => min s c
          | none => s) ctx.col := by
  unfold refreshLoop1
  exact refreshLoop1_startcol srcs ctx names m ctx.col

theorem minFold_filterMap (srcs : SrcTable) (ctx : Ctx) (m : MState) (t : List String) (sc : Nat) :
    t.foldl (fun s k => match qualColOf srcs ctx m k with | some c => min s c | none => s) sc
      = (t.filterMap (qualColOf srcs ctx m)).foldl min sc := by
  induction t generalizing sc with
  | nil => rfl
  | cons a t ih =>
    cases hq : qualColOf srcs ctx m a with
    | none =>
      rw [List.foldl_cons, hq, List.filterMap_cons_none hq]
      exact ih sc
    | some c =>
      rw [List.foldl_cons, hq, List.filterMap_cons_some hq, List.foldl_cons]
      exact ih (min sc c)

theorem foldl_min_le_init (l : List Nat) (a : Nat) : l.foldl min a ≤ a := by
  induction l generalizing a with
  | nil => exact Nat.le_refl a
  | cons x t ih =>
    rw [List.foldl_cons]
    exact Nat.le_trans (ih (min a x)) (Nat.min_le_left a x)

theorem foldl_min_le_mem (l : List Nat) (a : Nat) : ∀ x ∈ l, l.foldl min a ≤ x := by
  induction l generalizing a with
  | nil => intro x hx; simp at hx
  | cons y t ih =>
    intro x hx
    rw [List.foldl_cons]
    rcases List.mem_cons.mp hx with rfl | hxt
    · exact Nat.le_trans (foldl_min_le_init t (min a x)) (Nat.min_le_right a x)
    · exact ih (min a y) x hxt

theorem foldl_min_mem_or_init (l : List Nat) (a : Nat) :
    l.foldl min a = a ∨ l.foldl min a ∈ l := by
  induction l generalizing a with
  | nil => exact Or.inl rfl
  | cons x t ih =>
    rw [List.foldl_cons]
    rcases ih (min a x) with h | h
    · rw [h]
      rcases Nat.le_total a x with hax | hxa
      · exact Or.inl (Nat.min_eq_left hax)
      · exact Or.inr (by rw [Nat.min_eq_right hxa]; exact List.mem_cons_self x t)
    · exact Or.inr (List.mem_cons_of_mem x h)

theorem insertDesc_perm (x : String × Int) (l : List (String × Int)) :
    (insertDesc x l).Perm (x :: l) := by
  induction l with
  | nil => exact List.Perm.refl _
  | cons y t ih =>
    unfold insertDesc
    by_cases h : y.2 ≤ x.2
    · rw [if_pos h]
    · rw [if_neg h]
      exact (List.Perm.cons y ih).trans (List.Perm.swap x y t)

theorem sortDesc_perm (l : List (String × Int)) : (sortDesc l).Perm l := by
  induction l with
  | nil => exact List.Perm.refl _
  | cons x t ih =>
    unfold sortDesc
    rw [List.foldr_cons]
    exact (insertDesc_perm x _).trans (List.Perm.cons x ih)

theorem priorityKeys_map_fst (srcs : SrcTable) (ns : List String)
    (keyed : List (String × Int)) (h : priorityKeys srcs ns = Except.ok keyed) :
    keyed.map Prod.fst = ns := by
  induction ns generalizing keyed with
  | nil =>
    unfold priorityKeys at h
    injection h with h2
    subst h2
    rfl
  | cons n t ih =>
    unfold priorityKeys at h
    cases hl : lookupSrc srcs n with
    | none => simp only [hl] at h; exact Except.noConfusion h
    | some s =>
      simp only [hl] at h
      cases hp : s.priority with
      | none => simp only [hp] at h; exact Except.noConfusion h
      | some p =>
        simp only [hp] at h
        cases hk : priorityKeys srcs t with
        | error e => simp only [hk] at h; exact Except.noConfusion h
        | ok rest =>
          simp only [hk] at h
          injection h with h2
          subst h2
          simpa using ih rest hk

theorem sortNames_perm (srcs : SrcTable) (m : MState) (names : List String)
    (h : sortNamesByPriority srcs m = Except.ok names) :
    names.Perm (m.map Prod.fst) := by
  unfold sortNamesByPriority at h
  cases hk : priorityKeys srcs (m.map Prod.fst) with
  | error e => rw [hk] at h; cases h
  | ok keyed =>
    rw [hk] at h
    injection h with h2
    subst h2
    have hp := (sortDesc_perm keyed).map Prod.fst
    rw [priorityKeys_map_fst srcs _ keyed hk] at hp
    exact hp

theorem filterMap_keys_qualCols (srcs : SrcTable) (ctx : Ctx) (m : MState)
    (hnd : (m.map Prod.fst).Nodup) :
    (m.map Prod.fst).filterMap (qualColOf srcs ctx m) = qualCols srcs ctx m := by
  induction m with
  | nil => rfl
  | cons p t ih =>
    rw [List.map_cons] at hnd ⊢
    have hnotin : p.1 ∉ t.map Prod.fst := (List.nodup_cons.mp hnd).1
    have htnd := (List.nodup_cons.mp hnd).2
    have hl : lookupEntry (p :: t) p.1 = some p.2 := by
      simp [lookupEntry, List.find?]
    have hcg : ∀ k ∈ t.map Prod.fst,
        qualColOf srcs ctx (p :: t) k = qualColOf srcs ctx t k := by
      intro k hk
      have hne : p.1 ≠ k := fun he => hnotin (he ▸ hk)
      have hb : (p.1 == k) = false := by simp [hne]
      have hl2 : lookupEntry (p :: t) k = lookupEntry t k := by
        simp [lookupEntry, List.find?, hb]
      unfold qualColOf
      rw [hl2]
    have htail : (t.map Prod.fst).filterMap (qualColOf srcs ctx (p :: t))
        = (t.map Prod.fst).filterMap (qualColOf srcs ctx t) := List.filterMap_congr hcg
    have hhead : qualColOf srcs ctx (p :: t) p.1
        = if qualB srcs ctx p.1 p.2 then some p.2.startcol else none := by
      unfold qualColOf
      rw [hl]
    by_cases hq : qualB srcs ctx p.1 p.2 = true
    · rw [List.filterMap_cons_some (by rw [hhead, if_pos hq])]
      unfold qualCols
      rw [List.filterMap_cons_some
        (by show (if qualB srcs ctx p.1 p.2 = true then some p.2.startcol else none)
              = some p.2.startcol
            rw [if_pos hq])]
      rw [htail, ih htnd]
      rfl
    · rw [List.filterMap_cons_none (by rw [hhead, if_neg hq])]
      unfold qualCols
      rw [List.filterMap_cons_none
        (by show (if qualB srcs ctx p.1 p.2 = true then some p.2.startcol else none) = none
            rw [if_neg hq])]
      rw [htail, ih htnd]
      rfl

theorem qualCols_le_col (srcs : SrcTable) (ctx : Ctx) (m : MState) :
    ∀ c ∈ qualCols srcs ctx m, c ≤ ctx.col := by
  intro c hc
  unfold qualCols at hc
  obtain ⟨p, hp, hpq⟩ := List.mem_filterMap.mp hc
  by_cases h : qualB srcs ctx p.1 p.2 = true
  · rw [if_pos h] at hpq
    injection hpq with h2
    subst h2
    unfold qualB at h
    simp only [Bool.and_eq_true, decide_eq_true_eq] at h
    exact h.1
  · rw [if_neg h] at hpq
    cases hpq

/-- Claim C1: for every merge `_refresh_completions` performs (over a
stored table with distinct names), the startcol passed to the emission
call is the minimum startcol among the stored sources whose reprocessed
matches are non-empty, restricted to sources with startcol ≤ the context's
column; when no source qualifies it is the context's column. -/
theorem merge_startcol_is_min (st : HandlerState) (ctx : Ctx)
    (hnd : (st.matches.map Prod.fst).Nodup) :
    match _refresh_completions st ctx with
    | Except.ok mo =>
        (qualCols st.sources ctx st.matches = [] → mo.startcol = ctx.col) ∧
        (qualCols st.sources ctx st.matches ≠ [] →
          mo.startcol ∈ qualCols st.sources ctx st.matches ∧
          ∀ c ∈ qualCols st.sources ctx st.matches, mo.startcol ≤ c)
    | Except.error _ => True := by
  cases hs : sortNamesByPriority st.sources st.matches with
  | error e =>
    cases hmo : _refresh_completions st ctx with
    | error e2 => trivial
    | ok mo =>
      simp only [_refresh_completions, hs] at hmo
      exact Except.noConfusion hmo
  | ok names =>
    have hperm := sortNames_perm st.sources st.matches names hs
    cases hmo : _refresh_completions st ctx with
    | error e => trivial
    | ok mo =>
      simp only [_refresh_completions, hs] at hmo
      by_cases hn : names.isEmpty = true
      · rw [if_pos hn] at hmo
        injection hmo with h2
        subst h2
        have hnames : names = [] := List.isEmpty_iff.mp hn
        have h0 : ([] : List String).Perm (st.matches.map Prod.fst) := by
          rw [hnames] at hperm
          exact hperm
        have hkeys : st.matches.map Prod.fst = [] := List.Perm.eq_nil h0.symm
        have hm0 : st.matches = [] := List.map_eq_nil_iff.mp hkeys
        have hq : qualCols st.sources ctx st.matches = [] := by rw [hm0]; rfl
        exact ⟨fun _ => rfl, fun hne2 => absurd hq hne2⟩
      · have hne : names.isEmpty = false := eq_false_of_ne_true hn
        rw [hne] at hmo
        simp only [Bool.false_eq_true, if_false] at hmo
        injection hmo with h2
        subst h2
        have hperm2 : (names.filterMap (qualColOf st.sources ctx st.matches)).Perm
            (qualCols st.sources ctx st.matches) := by
          have h1 := hperm.filterMap (qualColOf st.sources ctx st.matches)
          rw [filterMap_keys_qualCols st.sources ctx st.matches hnd] at h1
          exact h1
        constructor
        · intro hq0
          have hcs0 : names.filterMap (qualColOf st.sources ctx st.matches) = [] := by
            refine List.Perm.eq_nil ?_
            rw [← hq0]
            exact hperm2
          show (refreshLoop1 st.sources ctx st.matches names).2 = ctx.col
          rw [refreshLoop1_snd, minFold_filterMap, hcs0]
          rfl
        · intro hq1
          have hgoal1 : ∀ c ∈ qualCols st.sources ctx st.matches,
              (refreshLoop1 st.sources ctx st.matches names).2 ≤ c := by
            intro c hc
            rw [refreshLoop1_snd, minFold_filterMap]
            exact foldl_min_le_mem _ ctx.col c (hperm2.mem_iff.mpr hc)
          have hgoal2 : (refreshLoop1 st.sources ctx st.matches names).2
              ∈ qualCols st.sources ctx st.matches := by
            rw [refreshLoop1_snd, minFold_filterMap]
            rcases foldl_min_mem_or_init
                (names.filterMap (qualColOf st.sources ctx st.matches)) ctx.col with h | h
            · rw [h]
              obtain ⟨c0, hc0⟩ := List.exists_mem_of_ne_nil _ hq1
              have hle := foldl_min_le_mem
                (names.filterMap (qualColOf st.sources ctx st.matches)) ctx.col c0
                (hperm2.mem_iff.mpr hc0)
              rw [h] at hle
              have hge : c0 ≤ ctx.col := qualCols_le_col st.sources ctx st.matches c0 hc0
              have hcc : c0 = ctx.col := Nat.le_antisymm hge hle
              exact hcc ▸ hc0
            · exact hperm2.mem_iff.mp h
          exact ⟨hgoal2, hgoal1⟩

/-- Witness for `merge_startcol_is_min` at a state holding sources at
startcols 1 and 3 under a column-3 context. -/
theorem merge_startcol_is_min_witness :
    match _refresh_completions exTwoColSt exCtx1 with
    | Except.ok mo =>
        (qualCols exTwoColSt.sources exCtx1 exTwoColSt.matches = [] → mo.startcol = exCtx1.col) ∧
        (qualCols exTwoColSt.sources exCtx1 exTwoColSt.matches ≠ [] →
          mo.startcol ∈ qualCols exTwoColSt.sources exCtx1 exTwoColSt.matches ∧
          ∀ c ∈ qualCols exTwoColSt.sources exCtx1 exTwoColSt.matches, mo.startcol ≤ c)
    | Except.error _ => True :=
  merge_startcol_is_min exTwoColSt exCtx1 (by decide)

/-! ### The word filter of `process_matches` and padding -/

theorem procList_keep (srcs : SrcTable) (name : String) (base : String)
    (items : List RawItem) (l : List PMatch) (h : procList srcs name base items = Except.ok l) :
    ∀ p ∈ l, keepB base p = true := by
  induction items generalizing l with
  | nil =>
    unfold procList at h
    injection h with h2
    subst h2
    intro p hp
    simp at hp
  | cons item rest ih =>
    unfold procList at h
    cases hi : procItem srcs name item with
    | error e => simp only [hi] at h; exact Except.noConfusion h
    | ok p0 =>
      simp only [hi] at h
      cases hr : procList srcs name base rest with
      | error e => simp only [hr] at h; exact Except.noConfusion h
      | ok ps =>
        simp only [hr] at h
        injection h with h2
        subst h2
        intro p hp
        by_cases hk : keepB base p0 = true
        · rw [if_pos hk] at hp
          rcases List.mem_cons.mp hp with rfl | hpt
          · exact hk
          · exact ih ps hr p hpt
        · rw [if_neg hk] at hp
          exact ih ps hr p hp

theorem mem_insertByLen (x y : PMatch) (l : List PMatch) (h : y ∈ insertByLen x l) :
    y = x ∨ y ∈ l := by
  induction l with
  | nil => simpa [insertByLen] using h
  | cons z t ih =>
    unfold insertByLen at h
    by_cases hc : x.word.length ≤ z.word.length
    · rw [if_pos hc] at h
      rcases List.mem_cons.mp h with rfl | h2
      · exact Or.inl rfl
      · exact Or.inr h2
    · rw [if_neg hc] at h
      rcases List.mem_cons.mp h with rfl | h2
      · exact Or.inr (List.mem_cons_self _ _)
      · rcases ih h2 with h3 | h3
        · exact Or.inl h3
        · exact Or.inr (List.mem_cons_of_mem _ h3)

theorem mem_sortByLen (l : List PMatch) (y : PMatch) (h : y ∈ sortByLen l) : y ∈ l := by
  induction l with
  | nil => simpa [sortByLen] using h
  | cons x t ih =>
    unfold sortByLen at h
    rw [List.foldr_cons] at h
    rcases mem_insertByLen x y _ h with rfl | h2
    · exact List.mem_cons_self _ _
    · exact List.mem_cons_of_mem _ (ih h2)

theorem process_matches_keep (srcs : SrcTable) (name : String) (ctx : Ctx) (sc : Nat)
    (raw : List RawItem) (l : List PMatch)
    (h : process_matches srcs name ctx sc raw = Except.ok l) :
    ∀ p ∈ l, keepB (pyDrop ctx.typed (sc - 1)) p = true := by
  unfold process_matches at h
  cases hr : procList srcs name (pyDrop ctx.typed (sc - 1)) raw with
  | error e => simp only [hr] at h; exact Except.noConfusion h
  | ok l0 =>
    simp only [hr] at h
    injection h with h2
    subst h2
    intro p hp
    exact procList_keep srcs name _ raw l0 hr p (mem_sortByLen l0 p hp)

theorem pad_keep (T w : List Char) (g s : Nat) (hgs : g ≤ s)
    (hw : (w.take (T.drop s).length).map Char.toLower = (T.drop s).map Char.toLower) :
    ((((T.take s).drop g) ++ w).take (T.drop g).length).map Char.toLower
      = (T.drop g).map Char.toLower := by
  by_cases hsT : s ≤ T.length
  · have hgle : g ≤ (T.take s).length := by
      rw [List.length_take]
      exact le_min hgs (Nat.le_trans hgs hsT)
    have hdecomp : T.drop g = (T.take s).drop g ++ T.drop s := by
      conv_lhs => rw [← List.take_append_drop s T]
      rw [List.drop_append_eq_append_drop, Nat.sub_eq_zero_of_le hgle, List.drop_zero]
    rw [hdecomp, List.length_append]
    rw [List.take_append_eq_append_take]
    rw [List.take_of_length_le (Nat.le_add_right _ _)]
    rw [Nat.add_sub_cancel_left]
    rw [List.map_append, List.map_append, hw]
  · have hsT' : T.length ≤ s := Nat.le_of_not_le hsT
    have hA : T.take s = T := List.take_of_length_le hsT'
    rw [hA]
    rw [List.take_left]

theorem keepB_data (base : String) (p : PMatch) (h : keepB base p = true) :
    (p.word.data.take base.data.length).map Char.toLower = base.data.map Char.toLower := by
  have h2 : strLower base = strLower (pyTake p.word base.length) := eq_of_beq h
  exact (congrArg String.data h2).symm

theorem lookupEntry_mem (m : MState) (k : String) (e : MatchEntry)
    (h : lookupEntry m k = some e) : (k, e) ∈ m := by
  unfold lookupEntry at h
  cases hf : m.find? (fun p => p.1 == k) with
  | none => rw [hf] at h; simp at h
  | some q =>
    rw [hf] at h
    simp only [Option.map_some'] at h
    have hq : q.2 = e := Option.some.inj h
    have hmem := List.mem_of_find?_eq_some hf
    have hpred := List.find?_some hf
    have hk : q.1 = k := by simpa using hpred
    cases q with
    | mk a b =>
      simp only at hk hq
      subst hk
      subst hq
      exact hmem

theorem lookup_strip_transfer (m m' : MState) (n : String) (e' : MatchEntry)
    (hstrip : (lookupEntry m' n).map stripE = (lookupEntry m n).map stripE)
    (h : lookupEntry m' n = some e') :
    ∃ e0, lookupEntry m n = some e0 ∧ stripE e0 = stripE e' := by
  rw [h] at hstrip
  cases h2 : lookupEntry m n with
  | none => rw [h2] at hstrip; simp at hstrip
  | some e0 =>
    rw [h2] at hstrip
    simp only [Option.map_some'] at hstrip
    exact ⟨e0, rfl, (Option.some.inj hstrip).symm⟩

theorem hok_setLast (srcs : SrcTable) (ctx : Ctx) (m : MState) (k : String) (v : List PMatch)
    (hok : ∀ n e, lookupEntry m n = some e →
      exceptOk (process_matches srcs n ctx e.startcol e.«matches») = true) :
    ∀ n e, lookupEntry (setLast m k v) n = some e →
      exceptOk (process_matches srcs n ctx e.startcol e.«matches») = true := by
  intro n e h
  obtain ⟨e0, h1, h2⟩ := lookup_strip_transfer m (setLast m k v) n e (lookup_setLast_strip m k v n) h
  have ha : e0.startcol = e.startcol := congrArg Prod.fst h2
  have hb : e0.«matches» = e.«matches» := congrArg Prod.snd h2
  rw [← ha, ← hb]
  exact hok n e0 h1

theorem loop1Body_lookup_ne (srcs : SrcTable) (ctx : Ctx) (acc : MState × Nat) (k : String)
    (v : MState × Nat) (h : loop1Body srcs ctx acc k = Except.ok v) (n : String) (hkn : k ≠ n) :
    lookupEntry v.1 n = lookupEntry acc.1 n := by
  unfold loop1Body at h
  cases hl : lookupEntry acc.1 k with
  | none => simp [hl] at h
  | some e =>
    simp only [hl] at h
    split at h
    · injection h with hv
      subst hv
      exact lookup_setLast_ne acc.1 k n hkn []
    · cases hp : process_matches srcs k ctx e.startcol e.«matches» with
      | error err => rw [hp] at h; simp at h
      | ok pm =>
        simp only [hp] at h
        split at h
        · injection h with hv
          subst hv
          exact lookup_setLast_ne acc.1 k n hkn pm
        · split at h
          · injection h with hv
            subst hv
            exact lookup_setLast_ne acc.1 k n hkn pm
          · injection h with hv
            subst hv
            exact lookup_setLast_ne acc.1 k n hkn pm

theorem refreshLoop1_fold_not_mem (srcs : SrcTable) (ctx : Ctx) (t : List String)
    (acc : MState × Nat) (n : String) (hn : n ∉ t) :
    lookupEntry (t.foldl (fun a k => pyCatch (loop1Body srcs ctx a k) a) acc).1 n
      = lookupEntry acc.1 n := by
  induction t generalizing acc with
  | nil => rfl
  | cons k rest ih =>
    have hnk : k ≠ n := fun he => hn (he ▸ List.mem_cons_self k rest)
    have hnr : n ∉ rest := fun he => hn (List.mem_cons_of_mem k he)
    rw [List.foldl_cons, ih _ hnr]
    cases hb : loop1Body srcs ctx acc k with
    | error e => simp [pyCatch, hb]
    | ok v =>
      simp only [pyCatch, hb]
      exact loop1Body_lookup_ne srcs ctx acc k v hb n hnk

theorem refreshLoop1_last_inv (srcs : SrcTable) (ctx : Ctx) (names : List String)
    (m : MState) (sc : Nat)
    (hok : ∀ k e, lookupEntry m k = some e →
      exceptOk (process_matches srcs k ctx e.startcol e.«matches») = true) :
    ∀ n ∈ names, ∀ e,
      lookupEntry ((names.foldl (fun a k => pyCatch (loop1Body srcs ctx a k) a) (m, sc)).1) n
        = some e →
      ∀ lm, e.last_matches = some lm → e.startcol ≤ ctx.col →
      ∃ e0, lookupEntry m n = some e0 ∧ stripE e0 = stripE e ∧
        process_matches srcs n ctx e0.startcol e0.«matches» = Except.ok lm := by
  induction names generalizing m sc with
  | nil => intro n hn; simp at hn
  | cons k t ih =>
    intro n hn e hlook lm hlm hval
    rw [List.foldl_cons] at hlook
    cases hl : lookupEntry m k with
    | none =>
      have hb : pyCatch (loop1Body srcs ctx (m, sc) k) (m, sc) = (m, sc) := by
        simp [loop1Body, hl, pyCatch]
      rw [hb] at hlook
      by_cases hnt : n ∈ t
      · exact ih m sc hok n hnt e hlook lm hlm hval
      · have hnk : n = k := (List.mem_cons.mp hn).resolve_right hnt
        subst hnk
        rw [refreshLoop1_fold_not_mem srcs ctx t (m, sc) n hnt] at hlook
        rw [hl] at hlook
        exact Option.noConfusion hlook
    | some e1 =>
      by_cases hc : ctx.col < e1.startcol
      · have hb : pyCatch (loop1Body srcs ctx (m, sc) k) (m, sc) = (setLast m k [], sc) := by
          simp [loop1Body, hl, hc, pyCatch]
        rw [hb] at hlook
        have hok2 := hok_setLast srcs ctx m k [] hok
        by_cases hnt : n ∈ t
        · obtain ⟨e0', h1, h2, h3⟩ := ih (setLast m k []) sc hok2 n hnt e hlook lm hlm hval
          obtain ⟨e0, h4, h5⟩ := lookup_strip_transfer m (setLast m k []) n e0'
            (lookup_setLast_strip m k [] n) h1
          refine ⟨e0, h4, h5.trans h2, ?_⟩
          have ha : e0.startcol = e0'.startcol := congrArg Prod.fst h5
          have hbm : e0.«matches» = e0'.«matches» := congrArg Prod.snd h5
          rw [ha, hbm]
          exact h3
        · have hnk : n = k := (List.mem_cons.mp hn).resolve_right hnt
          subst hnk
          rw [refreshLoop1_fold_not_mem srcs ctx t _ n hnt] at hlook
          rw [lookup_setLast_self m n [], hl] at hlook
          simp only [Option.map_some'] at hlook
          have he := Option.some.inj hlook
          subst he
          exact absurd hval (Nat.not_le.mpr hc)
      · cases hp : process_matches srcs k ctx e1.startcol e1.«matches» with
        | error err =>
          exfalso
          have hko := hok k e1 hl
          rw [hp] at hko
          simp [exceptOk] at hko
        | ok pm =>
          have hb : pyCatch (loop1Body srcs ctx (m, sc) k) (m, sc)
              = (setLast m k pm,
                 if pm.isEmpty then sc else if e1.startcol < sc then e1.startcol else sc) := by
            by_cases hpe : pm.isEmpty <;> by_cases hlt : e1.startcol < sc <;>
              simp [loop1Body, hl, hc, hp, pyCatch, hpe, hlt]
          rw [hb] at hlook
          have hok2 := hok_setLast srcs ctx m k pm hok
          by_cases hnt : n ∈ t
          · obtain ⟨e0', h1, h2, h3⟩ := ih (setLast m k pm) _ hok2 n hnt e hlook lm hlm hval
            obtain ⟨e0, h4, h5⟩ := lookup_strip_transfer m (setLast m k pm) n e0'
              (lookup_setLast_strip m k pm n) h1
            refine ⟨e0, h4, h5.trans h2, ?_⟩
            have ha : e0.startcol = e0'.startcol := congrArg Prod.fst h5
            have hbm : e0.«matches» = e0'.«matches» := congrArg Prod.snd h5
            rw [ha, hbm]
            exact h3
          · have hnk : n = k := (List.mem_cons.mp hn).resolve_right hnt
            subst hnk
            rw [refreshLoop1_fold_not_mem srcs ctx t _ n hnt] at hlook
            rw [lookup_setLast_self m n pm, hl] at hlook
            simp only [Option.map_some'] at hlook
            have he := Option.some.inj hlook
            subst he
            have hlm2 : pm = lm := Option.some.inj hlm
            subst hlm2
            exact ⟨e1, hl, rfl, hp⟩

theorem refreshLoop1_last (srcs : SrcTable) (ctx : Ctx) (names : List String) (m : MState)
    (hok : ∀ k e, lookupEntry m k = some e →
      exceptOk (process_matches srcs k ctx e.startcol e.«matches») = true) :
    ∀ n ∈ names, ∀ e, lookupEntry (refreshLoop1 srcs ctx m names).1 n = some e →
      ∀ lm, e.last_matches = some lm → e.startcol ≤ ctx.col →
      ∃ e0, lookupEntry m n = some e0 ∧ stripE e0 = stripE e ∧
        process_matches srcs n ctx e0.startcol e0.«matches» = Except.ok lm := by
  unfold refreshLoop1
  exact refreshLoop1_last_inv srcs ctx names m ctx.col hok

theorem contribOf_congr (ctx : Ctx) (gstart : Nat) (m m' : MState) (n : String)
    (h : lookupEntry m' n = lookupEntry m n) :
    contribOf ctx gstart m' n = contribOf ctx gstart m n := by
  unfold contribOf
  rw [h]

theorem flatMap_congr_mem {α β : Type} (l : List α) (f g : α → List β)
    (h : ∀ a ∈ l, f a = g a) : l.flatMap f = l.flatMap g := by
  induction l with
  | nil => rfl
  | cons a t ih =>
    rw [List.flatMap_cons, List.flatMap_cons, h a (List.mem_cons_self a t),
        ih (fun x hx => h x (List.mem_cons_of_mem a hx))]

theorem refreshLoop2_fold_out (ctx : Ctx) (gstart : Nat) (names : List String)
    (m : MState) (acc0 : List PMatch) (hnd : names.Nodup) :
    (names.foldl (fun a k => pyCatch (loop2Body ctx gstart a k) a) (m, acc0)).2
      = acc0 ++ names.flatMap (contribOf ctx gstart m) := by
  induction names generalizing m acc0 with
  | nil => simp
  | cons k t ih =>
    have hknt : k ∉ t := (List.nodup_cons.mp hnd).1
    have htnd : t.Nodup := (List.nodup_cons.mp hnd).2
    rw [List.foldl_cons, List.flatMap_cons]
    cases hl : lookupEntry m k with
    | none =>
      have hb : pyCatch (loop2Body ctx gstart (m, acc0) k) (m, acc0) = (m, acc0) := by
        simp [loop2Body, hl, pyCatch]
      have hc : contribOf ctx gstart m k = [] := by simp [contribOf, hl]
      rw [hb, hc, List.nil_append, ih m acc0 htnd]
    | some e =>
      by_cases hv : ctx.col < e.startcol
      · have hb : pyCatch (loop2Body ctx gstart (m, acc0) k) (m, acc0) = (m, acc0) := by
          simp [loop2Body, hl, hv, pyCatch]
        have hc : contribOf ctx gstart m k = [] := by simp [contribOf, hl, hv]
        rw [hb, hc, List.nil_append, ih m acc0 htnd]
      · cases hlm : e.last_matches with
        | none =>
          have hb : pyCatch (loop2Body ctx gstart (m, acc0) k) (m, acc0) = (m, acc0) := by
            simp [loop2Body, hl, hv, hlm, pyCatch]
          have hc : contribOf ctx gstart m k = [] := by simp [contribOf, hl, hv, hlm]
          rw [hb, hc, List.nil_append, ih m acc0 htnd]
        | some lm =>
          have hb : pyCatch (loop2Body ctx gstart (m, acc0) k) (m, acc0)
              = (setLast m k (padWords (pySlice ctx.typed (gstart - 1) (e.startcol - 1)) lm),
                 acc0 ++ padWords (pySlice ctx.typed (gstart - 1) (e.startcol - 1)) lm) := by
            simp [loop2Body, hl, hv, hlm, pyCatch]
          have hc : contribOf ctx gstart m k
              = padWords (pySlice ctx.typed (gstart - 1) (e.startcol - 1)) lm := by
            simp [contribOf, hl, hv, hlm]
          rw [hb, ih _ _ htnd, hc]
          rw [flatMap_congr_mem t _ _ (fun x hx => contribOf_congr ctx gstart m _ x
            (lookup_setLast_ne m k x (fun he => hknt (he ▸ hx)) _))]
          rw [List.append_assoc]

theorem refreshLoop2_out (ctx : Ctx) (gstart : Nat) (m : MState) (names : List String)
    (hnd : names.Nodup) :
    (refreshLoop2 ctx gstart m names).2 = names.flatMap (contribOf ctx gstart m) := by
  unfold refreshLoop2
  rw [refreshLoop2_fold_out ctx gstart names m [] hnd, List.nil_append]

theorem strLower_take_eq (X Y : String) (n : Nat)
    (h : (X.data.take n).map Char.toLower = Y.data.map Char.toLower) :
    strLower (pyTake X n) = strLower Y := congrArg String.mk h

/-- Claim C5 as amended: provided every stored source's raw matches
reprocess without an exception in this merge (as is the case whenever all
candidates are well-formed records), every candidate word in the emitted
matches list, case-folded and truncated to the length of the global prefix
`ctx['typed'][startcol-1:]`, equals that prefix case-folded — including
padded candidates from sources whose own startcol differs from the global
one.  (When reprocessing a source raises, its stale `last_matches` from an
earlier context survive and may violate the law.) -/
theorem emitted_words_match_base (st : HandlerState) (ctx : Ctx)
    (hnd : (st.matches.map Prod.fst).Nodup)
    (hok : ∀ p ∈ st.matches,
      exceptOk (process_matches st.sources p.1 ctx p.2.startcol p.2.«matches») = true) :
    match _refresh_completions st ctx with
    | Except.ok mo =>
        ∀ q ∈ mo.merged,
          strLower (pyTake q.word (pyDrop ctx.typed (mo.startcol - 1)).length)
            = strLower (pyDrop ctx.typed (mo.startcol - 1))
    | Except.error _ => True := by
  cases hs : sortNamesByPriority st.sources st.matches with
  | error e =>
    cases hmo : _refresh_completions st ctx with
    | error e2 => trivial
    | ok mo =>
      simp only [_refresh_completions, hs] at hmo
      exact Except.noConfusion hmo
  | ok names =>
    have hperm := sortNames_perm st.sources st.matches names hs
    have hnamesnd : names.Nodup := hperm.symm.nodup hnd
    have hokl : ∀ k e, lookupEntry st.matches k = some e →
        exceptOk (process_matches st.sources k ctx e.startcol e.«matches») = true := by
      intro k e h
      exact hok (k, e) (lookupEntry_mem st.matches k e h)
    cases hmo : _refresh_completions st ctx with
    | error e => trivial
    | ok mo =>
      simp only [_refresh_completions, hs] at hmo
      by_cases hn : names.isEmpty = true
      · rw [if_pos hn] at hmo
        injection hmo with h2
        subst h2
        intro q hq
        simp at hq
      · have hne := eq_false_of_ne_true hn
        rw [hne] at hmo
        simp only [Bool.false_eq_true, if_false] at hmo
        injection hmo with h2
        subst h2
        intro q hq
        have hq2 : q ∈ (refreshLoop2 ctx (refreshLoop1 st.sources ctx st.matches names).2
            (refreshLoop1 st.sources ctx st.matches names).1 names).2 := hq
        rw [refreshLoop2_out ctx _ _ names hnamesnd] at hq2
        obtain ⟨n, hnmem, hqc⟩ := List.mem_flatMap.mp hq2
        unfold contribOf at hqc
        cases hle : lookupEntry (refreshLoop1 st.sources ctx st.matches names).1 n with
        | none => rw [hle] at hqc; simp at hqc
        | some e =>
          simp only [hle] at hqc
          by_cases hv : ctx.col < e.startcol
          · rw [if_pos hv] at hqc
            simp at hqc
          · rw [if_neg hv] at hqc
            cases hlm : e.last_matches with
            | none => rw [hlm] at hqc; simp at hqc
            | some lm =>
              simp only [hlm] at hqc
              obtain ⟨q0, hq0mem, hq0pad⟩ := List.mem_map.mp hqc
              obtain ⟨e0, he0, hstrip, hproc⟩ := refreshLoop1_last st.sources ctx names
                st.matches hokl n hnmem e hle lm hlm (Nat.le_of_not_lt hv)
              have hsceq : e0.startcol = e.startcol := congrArg Prod.fst hstrip
              have hkeep := process_matches_keep st.sources n ctx e0.startcol
                e0.«matches» lm hproc q0 hq0mem
              have hkd := keepB_data (pyDrop ctx.typed (e0.startcol - 1)) q0 hkeep
              have h1 : e0.startcol ≤ ctx.col := by
                rw [hsceq]
                exact Nat.le_of_not_lt hv
              have hq1 : qualB st.sources ctx n e0 = true := by
                unfold qualB
                simp only [hproc]
                simp [h1, List.isEmpty_eq_false.mpr (List.ne_nil_of_mem hq0mem)]
              have hqcol : qualColOf st.sources ctx st.matches n = some e0.startcol := by
                simp only [qualColOf, he0]
                rw [if_pos hq1]
              have hmemcs : e0.startcol
                  ∈ names.filterMap (qualColOf st.sources ctx st.matches) :=
                List.mem_filterMap.mpr ⟨n, hnmem, hqcol⟩
              have hgs : (refreshLoop1 st.sources ctx st.matches names).2 ≤ e0.startcol := by
                rw [refreshLoop1_snd, minFold_filterMap]
                exact foldl_min_le_mem _ ctx.col e0.startcol hmemcs
              have hgs2 : (refreshLoop1 st.sources ctx st.matches names).2 - 1
                  ≤ e.startcol - 1 :=
                Nat.sub_le_sub_right (hsceq ▸ hgs) 1
              subst hq0pad
              exact strLower_take_eq _ _ _
                (pad_keep ctx.typed.data q0.word.data
                  ((refreshLoop1 st.sources ctx st.matches names).2 - 1)
                  (e.startcol - 1) hgs2 (hsceq ▸ hkd))

/-- Claim C5 counterexample: the merge triggered by `cexStp4` emits, at
global startcol 1 under typed text `cd`, the stale word `abX` (kept from
the `ab` cycle because reprocessing source `s` raised) next to `cdY`; the
word `abX` truncated to the global prefix length and case-folded differs
from the case-folded prefix `cd`. -/
theorem emitted_word_base_counterexample :
    cexStp4.emits = [(1, [{ word := "abX", menu := "m", info := none },
                          { word := "cdY", menu := "", info := none }])] ∧
    ¬ (∀ q ∈ [({ word := "abX", menu := "m", info := none } : PMatch),
              { word := "cdY", menu := "", info := none }],
        strLower (pyTake q.word (pyDrop exCtx2.typed (1 - 1)).length)
          = strLower (pyDrop exCtx2.typed (1 - 1))) := by
  decide

/-- Witness for `emitted_words_match_base` at a merge of two well-formed
sources at startcols 1 and 3. -/
theorem emitted_words_match_base_witness :
    match _refresh_completions exTwoColSt exCtx1 with
    | Except.ok mo =>
        ∀ q ∈ mo.merged,
          strLower (pyTake q.word (pyDrop exCtx1.typed (mo.startcol - 1)).length)
            = strLower (pyDrop exCtx1.typed (mo.startcol - 1))
    | Except.error _ => True :=
  emitted_words_match_base exTwoColSt exCtx1 (by decide) (by decide)
